import Mathlib

/-!
Verification development for the document de-identification pipeline of the
`lawer_lms_back` repository (files `app/services/ner_service.py`,
`app/services/llm_service.py`, `app/services/llm_service_cloud.py`).

Python strings are modelled as `List Char` (a Python `str` is a sequence of
Unicode code points, and `len`, slicing and concatenation agree with list
length, sublists and append).  Stateful code (the global placeholder
counters) is modelled by explicit state passing.  Network calls made by the
rewriter backends are modelled by explicit outcome values / outcome
functions passed as parameters: the Lean function computes exactly what the
Python function computes once the result of each external call is fixed.
-/

/-- Model of a Python `str`: a sequence of Unicode code points. -/
abbrev PyStr := List Char

namespace Deid

/-- The whitespace test used by Python's `str.strip()` / `\s`, restricted to
the whitespace characters that can occur in this development (the ASCII
whitespace characters; the source texts are Latin/Cyrillic plus ASCII
punctuation, so wider Unicode whitespace never arises). -/
def pyIsSpace (c : Char) : Bool :=
  c = ' ' || c = '\t' || c = '\n' || c = '\r' || c = '\x0b' || c = '\x0c'

/-- Python `str.lstrip()` (no arguments): drop leading whitespace. -/
def pyLStrip (s : PyStr) : PyStr := s.dropWhile pyIsSpace

/-- Python `str.rstrip()` (no arguments): drop trailing whitespace. -/
def pyRStrip (s : PyStr) : PyStr := (s.reverse.dropWhile pyIsSpace).reverse

/-- Python `str.strip()` (no arguments). -/
def pyStrip (s : PyStr) : PyStr := pyRStrip (pyLStrip s)

/-- The paragraph separator `"\n\n"` used by `chunk_text`. -/
def sepBlank : PyStr := ['\n', '\n']

/-- Helper for `pySplit`: `cur` holds the reversed characters of the part
being accumulated.  The fuel argument only bounds the recursion depth: a
non-empty separator consumes at least one character per step, so with fuel
`> length` the zero-fuel branch is never reached. -/
def pySplitGo (sep : PyStr) : Nat → PyStr → PyStr → List PyStr
  | 0, s, cur => [cur.reverse ++ s]
  | _ + 1, [], cur => [cur.reverse]
  | f + 1, c :: cs, cur =>
    if sep.isPrefixOf (c :: cs) then
      cur.reverse :: pySplitGo sep f ((c :: cs).drop sep.length) []
    else
      pySplitGo sep f cs (c :: cur)

/-- Python `text.split(sep)` for a non-empty separator `sep`: the list of
parts between non-overlapping leftmost occurrences of `sep`.  (For an empty
separator Python raises; that case never occurs here.) -/
def pySplit (sep : PyStr) (s : PyStr) : List PyStr :=
  if sep = [] then [s] else pySplitGo sep (s.length + 1) s []

/-- Join a list of strings with a separator (Python `sep.join(parts)`). -/
def joinSep (sep : PyStr) : List PyStr → PyStr
  | [] => []
  | [a] => a
  | a :: b :: l => a ++ sep ++ joinSep sep (b :: l)

/-! ### `chunk_text` (`app/services/llm_service.py`, lines 332-364)

```python
def chunk_text(text, max_chunk_size=8000):
    if len(text) <= max_chunk_size:
        return [text]
    chunks = []
    current_chunk = ""
    paragraphs = text.split("\n\n")
    for paragraph in paragraphs:
        if len(current_chunk) + len(paragraph) <= max_chunk_size:
            current_chunk += paragraph + "\n\n"
        else:
            if current_chunk:
                chunks.append(current_chunk.strip())
            current_chunk = paragraph + "\n\n"
    if current_chunk:
        chunks.append(current_chunk.strip())
    return chunks
```
-/

/-- The paragraph loop of `chunk_text`: `current` is `current_chunk`, the
returned list is what gets appended to `chunks` from this point on. -/
def chunkGo (M : Nat) : List PyStr → PyStr → List PyStr
  | [], current => if current.isEmpty then [] else [pyStrip current]
  | p :: ps, current =>
    if current.length + p.length ≤ M then
      chunkGo M ps (current ++ p ++ sepBlank)
    else
      if current.isEmpty then
        chunkGo M ps (p ++ sepBlank)
      else
        pyStrip current :: chunkGo M ps (p ++ sepBlank)

/-- `chunk_text` from `app/services/llm_service.py`. -/
def chunk_text (text : PyStr) (max_chunk_size : Nat) : List PyStr :=
  if text.length ≤ max_chunk_size then [text]
  else chunkGo max_chunk_size (pySplit sepBlank text) []

/-! ### Placeholder counters (`app/services/ner_service.py`, lines 12-53)

The Python module keeps four global counters.  They are modelled as an
explicit state record threaded through the functions that use them. -/

/-- The four global placeholder counters of `ner_service.py`. -/
structure Counters where
  person : Nat
  org : Nat
  geo : Nat
  address : Nat
deriving DecidableEq, Repr

/-- `reset_counters()`: all four counters are set to `0`. -/
def reset_counters (_c : Counters) : Counters := ⟨0, 0, 0, 0⟩

/-- The state of the counters right after `reset_counters` (also the state
of a freshly started process, since the globals are initialised to `0`). -/
def freshCounters : Counters := ⟨0, 0, 0, 0⟩

/-- `get_person_placeholder()`: increment `PERSON_COUNTER` and return
`f"[ЛИЦО-{PERSON_COUNTER}]"`. -/
def get_person_placeholder (c : Counters) : PyStr × Counters :=
  let n := c.person + 1
  ("[ЛИЦО-".data ++ Nat.toDigits 10 n ++ "]".data, { c with person := n })

/-- `get_org_placeholder()`: increment `ORG_COUNTER` and return
`f"[ОРГ-{ORG_COUNTER}]"`. -/
def get_org_placeholder (c : Counters) : PyStr × Counters :=
  let n := c.org + 1
  ("[ОРГ-".data ++ Nat.toDigits 10 n ++ "]".data, { c with org := n })

/-- `get_geo_placeholder()`: increment `GEO_COUNTER` and return
`f"[ГЕО-{GEO_COUNTER}]"`. -/
def get_geo_placeholder (c : Counters) : PyStr × Counters :=
  let n := c.geo + 1
  ("[ГЕО-".data ++ Nat.toDigits 10 n ++ "]".data, { c with geo := n })

/-- `get_address_placeholder()`: increment `ADDRESS_COUNTER` and return
`f"[АДРЕС-{ADDRESS_COUNTER}]"`. -/
def get_address_placeholder (c : Counters) : PyStr × Counters :=
  let n := c.address + 1
  ("[АДРЕС-".data ++ Nat.toDigits 10 n ++ "]".data, { c with address := n })

/-- The four placeholder categories. -/
inductive Cat where
  | person | org | geo | address
deriving DecidableEq, Repr

/-- Dispatch a placeholder call by category. -/
def placeholderCall (c : Counters) : Cat → PyStr × Counters
  | .person => get_person_placeholder c
  | .org => get_org_placeholder c
  | .geo => get_geo_placeholder c
  | .address => get_address_placeholder c

/-- Run an interleaved sequence of placeholder calls, pairing each result
with the category of the call that produced it. -/
def runAnnotated (c : Counters) : List Cat → List (Cat × PyStr)
  | [] => []
  | k :: ks =>
    let r := placeholderCall c k
    (k, r.1) :: runAnnotated r.2 ks

/-- The placeholder string a category produces for sequence number `n`
(what `get_*_placeholder` formats). -/
def placeholderTag : Cat → Nat → PyStr
  | .person, n => "[ЛИЦО-".data ++ Nat.toDigits 10 n ++ "]".data
  | .org, n => "[ОРГ-".data ++ Nat.toDigits 10 n ++ "]".data
  | .geo, n => "[ГЕО-".data ++ Nat.toDigits 10 n ++ "]".data
  | .address, n => "[АДРЕС-".data ++ Nat.toDigits 10 n ++ "]".data

/-- Read the counter of one category. -/
def catCount (c : Counters) : Cat → Nat
  | .person => c.person
  | .org => c.org
  | .geo => c.geo
  | .address => c.address

/-! ### Character classes

Python's `re` classes `\d`, `\s`, `\w` are Unicode-aware; the texts this
pipeline handles are Latin/Cyrillic with ASCII punctuation, so the classes
are transcribed restricted to those scripts (the Cyrillic block U+0400 to
U+04FF contains every Russian and Kazakh letter used in the source
patterns). -/

/-- `\d` (ASCII digits; the source patterns only meet ASCII digits). -/
def isDigitChar (c : Char) : Bool := '0' ≤ c && c ≤ '9'

/-- ASCII letters `[a-zA-Z]`. -/
def isAsciiAlphaChar (c : Char) : Bool :=
  ('a' ≤ c && c ≤ 'z') || ('A' ≤ c && c ≤ 'Z')

/-- Letters of the Cyrillic block (covers Russian and Kazakh). -/
def isCyrillicChar (c : Char) : Bool := 0x400 ≤ c.val && c.val ≤ 0x4FF

/-- Python's `\w` (word character), restricted to the scripts in use. -/
def isWordChar (c : Char) : Bool :=
  isAsciiAlphaChar c || isDigitChar c || c = '_' || isCyrillicChar c

/-- Python `str.lower()` on one character, for ASCII and the Cyrillic block
(uppercase А-Я maps by +0x20, Ѐ-Џ — including Ё and І — by +0x50, and the
Kazakh letters Ә Ң Ғ Ү Ұ Қ Ө Һ pair with their successors). -/
def pyLowerChar (c : Char) : Char :=
  if 'A' ≤ c && c ≤ 'Z' then Char.ofNat (c.toNat + 32)
  else if 0x410 ≤ c.val && c.val ≤ 0x42F then Char.ofNat (c.toNat + 0x20)
  else if 0x400 ≤ c.val && c.val ≤ 0x40F then Char.ofNat (c.toNat + 0x50)
  else if c.val = 0x4D8 || c.val = 0x4A2 || c.val = 0x492 || c.val = 0x4AE
       || c.val = 0x4B0 || c.val = 0x49A || c.val = 0x4E8 || c.val = 0x4BA then
    Char.ofNat (c.toNat + 1)
  else c

/-- Python `str.lower()`. -/
def pyLower (s : PyStr) : PyStr := s.map pyLowerChar

/-! ### A regex engine with Python `re` semantics

The patterns of `REGEX_PATTERNS` use literals, character classes, greedy
counted repetition (`?`, `*`, `+`, `{n}`, `{n,m}`, `{n,}`), non-capturing
alternation `(?:a|b|c)` and the word boundary `\b`.  The engine below is a
backtracking matcher with Python's leftmost-first, greedy-first semantics,
written in continuation-passing style.  `fuel` bounds the recursion depth
(the search depth of a backtracking match is bounded by the pattern size
times the input length, so the generous bound in `reFuel` is never hit). -/

/-- Abstract syntax of the regexes used in `REGEX_PATTERNS`. -/
inductive RE where
  /-- a single-character class -/
  | cls (p : Char → Bool)
  /-- a literal string -/
  | strLit (s : PyStr)
  /-- concatenation -/
  | seqRE (rs : List RE)
  /-- alternation `(?:r1|r2|...)`, tried left to right -/
  | altRE (rs : List RE)
  /-- greedy repetition: at least `lo` and (when `hi = some h`) at most `h` -/
  | rep (lo : Nat) (hi : Option Nat) (r : RE)
  /-- the word boundary `\b` -/
  | bound

/-- Is the optional character a word character (`none` = outside the
string, which counts as a non-word position)? -/
def optIsWord (c : Option Char) : Bool := c.elim false isWordChar

/-- `\b` holds between the previous character and the start of `s`. -/
def boundaryOk (prev : Option Char) (s : PyStr) : Bool :=
  optIsWord prev != optIsWord s.head?

mutual

/-- Match `r` at the start of `s` (with `prev` the character just before
`s`, for `\b`), then run the continuation `k` on the last consumed
character and the remaining suffix.  Returns the first success of the
backtracking search in Python's leftmost-first, greedy-first order. -/
def reM (fuel : Nat) (r : RE) (prev : Option Char) (s : PyStr)
    (k : Option Char → PyStr → Option PyStr) : Option PyStr :=
  match fuel with
  | 0 => none
  | fuel + 1 =>
    match r with
    | .cls p =>
      match s with
      | [] => none
      | c :: cs => if p c then k (some c) cs else none
    | .strLit l =>
      if l.isPrefixOf s then
        match l.getLast? with
        | none => k prev s
        | some c => k (some c) (s.drop l.length)
      else none
    | .seqRE rs => reMSeq fuel rs prev s k
    | .altRE rs => reMAlt fuel rs prev s k
    | .rep lo hi r =>
      match lo with
      | lo' + 1 =>
        reM fuel r prev s (fun p' s' =>
          reM fuel (.rep lo' (hi.map (· - 1)) r) p' s' k)
      | 0 =>
        match hi with
        | some 0 => k prev s
        | _ =>
          (reM fuel r prev s (fun p' s' =>
            if s'.length < s.length then
              reM fuel (.rep 0 (hi.map (· - 1)) r) p' s' k
            else none)).orElse (fun _ => k prev s)
    | .bound => if boundaryOk prev s then k prev s else none

/-- Match a concatenation of regexes. -/
def reMSeq (fuel : Nat) (rs : List RE) (prev : Option Char) (s : PyStr)
    (k : Option Char → PyStr → Option PyStr) : Option PyStr :=
  match fuel with
  | 0 => none
  | fuel + 1 =>
    match rs with
    | [] => k prev s
    | r :: rest => reM fuel r prev s (fun p' s' => reMSeq fuel rest p' s' k)

/-- Match an alternation, trying alternatives left to right. -/
def reMAlt (fuel : Nat) (rs : List RE) (prev : Option Char) (s : PyStr)
    (k : Option Char → PyStr → Option PyStr) : Option PyStr :=
  match fuel with
  | 0 => none
  | fuel + 1 =>
    match rs with
    | [] => none
    | r :: rest => (reM fuel r prev s k).orElse (fun _ => reMAlt fuel rest prev s k)

end

/-- Fuel bound for a match attempt on `s` (comfortably above the maximal
backtracking depth for the patterns of `REGEX_PATTERNS`). -/
def reFuel (s : PyStr) : Nat := 200 * (s.length + 2)

/-- Length of the match of `r` at the start of `s` (`none` if no match),
with Python's leftmost-first, greedy-first semantics. -/
def reTry (r : RE) (prev : Option Char) (s : PyStr) : Option Nat :=
  match reM (reFuel s) r prev s (fun _ rest => some rest) with
  | none => none
  | some rest => some (s.length - rest.length)

/-- The scan shared by `re.finditer` and `re.sub`: walk `s` left to right,
taking the leftmost non-overlapping matches.  Returns the list of
(plain text before the match, matched text) pairs and the plain tail.
(None of the source patterns can match the empty string; a zero-width
match is skipped defensively.) -/
def reScanGo (r : RE) (f : Nat) (prev : Option Char) (s : PyStr) :
    List (PyStr × PyStr) × PyStr :=
  match f with
  | 0 => ([], s)
  | f + 1 =>
    match s with
    | [] => ([], [])
    | c :: cs =>
      match reTry r prev s with
      | some n =>
        if 0 < n then
          let grp := s.take n
          let res := reScanGo r f grp.getLast? (s.drop n)
          (([], grp) :: res.1, res.2)
        else
          let res := reScanGo r f (some c) cs
          match res.1 with
          | [] => ([], c :: res.2)
          | (pre, g) :: rest => ((c :: pre, g) :: rest, res.2)
      | none =>
        let res := reScanGo r f (some c) cs
        match res.1 with
        | [] => ([], c :: res.2)
        | (pre, g) :: rest => ((c :: pre, g) :: rest, res.2)

/-- `[m.group() for m in re.finditer(r, s)]`. -/
def reFindAll (r : RE) (s : PyStr) : List PyStr :=
  (reScanGo r (s.length + 1) none s).1.map Prod.snd

/-- `re.sub(r, repl, s)` for a replacement string without backreferences. -/
def reSub (r : RE) (repl : PyStr) (s : PyStr) : PyStr :=
  let res := reScanGo r (s.length + 1) none s
  (res.1.map (fun pr => pr.1 ++ repl)).flatten ++ res.2

/-! ### The patterns of `REGEX_PATTERNS` (`ner_service.py`, lines 56-108) -/

/-- `\d{n}`. -/
def dRep (n : Nat) : RE := .rep n (some n) (.cls isDigitChar)

/-- `\d{lo,hi}`. -/
def dRange (lo hi : Nat) : RE := .rep lo (some hi) (.cls isDigitChar)

/-- `\d+`. -/
def dPlus : RE := .rep 1 none (.cls isDigitChar)

/-- `\s*`. -/
def sStar : RE := .rep 0 none (.cls pyIsSpace)

/-- `\s+`. -/
def sPlus : RE := .rep 1 none (.cls pyIsSpace)

/-- `[-\s]?`. -/
def dashSpaceOpt : RE := .rep 0 (some 1) (.cls (fun c => c = '-' || pyIsSpace c))

/-- `-?`. -/
def dashOpt : RE := .rep 0 (some 1) (.cls (fun c => c = '-'))

/-- `[:\s]*`. -/
def colonSpaceStar : RE := .rep 0 none (.cls (fun c => c = ':' || pyIsSpace c))

/-- `,?`. -/
def commaOpt : RE := .rep 0 (some 1) (.cls (fun c => c = ','))

/-- A literal (regex-escaped) string. -/
def litS (s : String) : RE := .strLit s.data

/-- A literal string matched case-insensitively (for the address patterns,
which are compiled with `re.IGNORECASE`). -/
def litCI (s : String) : RE :=
  .seqRE (s.data.map (fun c => .cls (fun x => pyLowerChar x = pyLowerChar c)))

/-- `REGEX_PATTERNS['phone']`. -/
def phonePatterns : List RE :=
  [.seqRE [litS "+7", dashSpaceOpt, dRep 3, dashSpaceOpt, dRep 3,
           dashSpaceOpt, dRep 2, dashSpaceOpt, dRep 2],
   .seqRE [litS "8", dashSpaceOpt, dRep 3, dashSpaceOpt, dRep 3,
           dashSpaceOpt, dRep 2, dashSpaceOpt, dRep 2],
   .seqRE [litS "+7(", dRep 3, litS ")", dRep 3, dashOpt, dRep 2, dashOpt, dRep 2]]

/-- The class `[a-zA-Z0-9._%+-]` of the email pattern. -/
def emailLocalCls (c : Char) : Bool :=
  isAsciiAlphaChar c || isDigitChar c || c = '.' || c = '_' || c = '%' || c = '+' || c = '-'

/-- The class `[a-zA-Z0-9.-]` of the email pattern. -/
def emailDomainCls (c : Char) : Bool :=
  isAsciiAlphaChar c || isDigitChar c || c = '.' || c = '-'

/-- `REGEX_PATTERNS['email']`. -/
def emailPatterns : List RE :=
  [.seqRE [.rep 1 none (.cls emailLocalCls), litS "@",
           .rep 1 none (.cls emailDomainCls), litS ".",
           .rep 2 none (.cls isAsciiAlphaChar)]]

/-- `REGEX_PATTERNS['inn']`. -/
def innPatterns : List RE :=
  [.seqRE [litS "ИНН", colonSpaceStar, dRange 10 12],
   .seqRE [.bound, dRep 10, .bound],
   .seqRE [.bound, dRep 12, .bound]]

/-- `REGEX_PATTERNS['bin']`. -/
def binPatterns : List RE :=
  [.seqRE [litS "БИН", colonSpaceStar, dRep 12],
   .seqRE [litS "БИК", colonSpaceStar, dRep 9]]

/-- `REGEX_PATTERNS['snils']`. -/
def snilsPatterns : List RE :=
  [.seqRE [litS "СНИЛС", colonSpaceStar, dRep 3, litS "-", dRep 3, litS "-",
           dRep 3, sStar, dRep 2],
   .seqRE [.bound, dRep 3, litS "-", dRep 3, litS "-", dRep 3, sStar, dRep 2, .bound]]

/-- `REGEX_PATTERNS['passport']`. -/
def passportPatterns : List RE :=
  [.seqRE [litS "паспорт", colonSpaceStar, dRep 4, sStar, dRep 6],
   .seqRE [litS "паспорта", colonSpaceStar, dRep 4, sStar, dRep 6],
   .seqRE [.bound, dRep 4, sStar, dRep 6, .bound]]

/-- The class `[АВЕКМНОРСТУХ]` of the licence-plate pattern. -/
def plateCls (c : Char) : Bool := "АВЕКМНОРСТУХ".data.contains c

/-- `REGEX_PATTERNS['license_plate']`. -/
def license_platePatterns : List RE :=
  [.seqRE [.cls plateCls, dRep 3, .rep 2 (some 2) (.cls plateCls), dRange 2 3]]

/-- `REGEX_PATTERNS['bank_account']`. -/
def bank_accountPatterns : List RE := [.seqRE [.bound, dRep 20, .bound]]

/-- `REGEX_PATTERNS['card']`. -/
def cardPatterns : List RE :=
  [.seqRE [.bound, dRep 4, dashSpaceOpt, dRep 4, dashSpaceOpt, dRep 4,
           dashSpaceOpt, dRep 4, .bound]]

/-- The class `[А-Яа-яӘәІіҢңҒғҮүҰұҚқӨөҺһ\w\s]` of the address patterns:
all the explicitly listed letters lie in the Cyrillic block, hence in `\w`,
so the class is exactly word-or-space. -/
def addrNameCls (c : Char) : Bool := isWordChar c || pyIsSpace c

/-- `REGEX_PATTERNS['address']` (matched with `re.IGNORECASE`). -/
def addressPatterns : List RE :=
  [.seqRE [.altRE [litCI "ул.", litCI "улица", litCI "көше"], sPlus,
           .rep 1 none (.cls addrNameCls), commaOpt, sStar,
           .altRE [litCI "д.", litCI "дом", litCI "үй"], sStar, dPlus],
   .seqRE [.altRE [litCI "пр.", litCI "проспект", litCI "даңғыл"], sPlus,
           .rep 1 none (.cls addrNameCls), commaOpt, sStar, dPlus],
   .seqRE [.altRE [litCI "кв.", litCI "квартира", litCI "пәтер"], sStar, dPlus]]

/-! ### `replace_with_regex` (`ner_service.py`, lines 111-201)

For each of the nine "flat" categories the Python code runs, per pattern:

```python
matches = re.finditer(pattern, cleaned_text)
for match in matches:
    if match.group() not in replacements:
        replacements[match.group()] = TAG
cleaned_text = re.sub(pattern, TAG, cleaned_text)
```

and for the address category, per pattern:

```python
matches = re.finditer(pattern, cleaned_text, re.IGNORECASE)
for match in matches:
    if match.group() not in replacements:
        placeholder = get_address_placeholder()
        replacements[match.group()] = placeholder
        cleaned_text = cleaned_text.replace(match.group(), placeholder)
```
-/

/-- The insertion-ordered replacement dictionary. -/
abbrev Replacements := List (PyStr × PyStr)

/-- The keys of a replacement dictionary. -/
def keysOf (reps : Replacements) : List PyStr := reps.map Prod.fst

/-- `if key not in replacements: replacements[key] = val`. -/
def addIfNew (reps : Replacements) (key val : PyStr) : Replacements :=
  if key ∈ keysOf reps then reps else reps ++ [(key, val)]

/-- The scan of Python `s.replace(o, repl)` (fuel-bounded; a match
consumes `o.length ≥ 1` characters, a non-match one character, so fuel
`> length` suffices). -/
def pyReplaceAllGo (o repl : PyStr) : Nat → PyStr → PyStr
  | 0, s => s
  | _ + 1, [] => []
  | f + 1, c :: cs =>
    if 0 < o.length ∧ o.isPrefixOf (c :: cs) then
      repl ++ pyReplaceAllGo o repl f ((c :: cs).drop o.length)
    else c :: pyReplaceAllGo o repl f cs

/-- Python `s.replace(o, repl)` for a non-empty `o`: replace every
non-overlapping occurrence of the literal `o`, left to right. -/
def pyReplaceAll (o repl s : PyStr) : PyStr :=
  pyReplaceAllGo o repl (s.length + 1) s

/-- One flat category of `replace_with_regex`: for each pattern, register
the matched values (first occurrence wins) and then substitute by
re-running the regex over the text (`re.sub`). -/
def flatCategoryStep (pats : List RE) (tag : PyStr) (st : PyStr × Replacements) :
    PyStr × Replacements :=
  pats.foldl (fun st pat =>
    let ms := reFindAll pat st.1
    let reps := ms.foldl (fun r m => addIfNew r m tag) st.2
    (reSub pat tag st.1, reps)) st

/-- One address pattern of `replace_with_regex`: the match iterator is a
snapshot of the current text, and each newly seen matched value is
substituted literally (`str.replace`) into the progressively rewritten
text with a fresh numbered placeholder. -/
def addressStep (st : PyStr × Replacements × Counters) (pat : RE) :
    PyStr × Replacements × Counters :=
  let ms := reFindAll pat st.1
  ms.foldl (fun s m =>
    if m ∈ keysOf s.2.1 then s
    else
      let pc := get_address_placeholder s.2.2
      (pyReplaceAll m pc.1 s.1, s.2.1 ++ [(m, pc.1)], pc.2)) st

/-- `replace_with_regex` from `ner_service.py`: the nine flat category
passes followed by the address pass, each pass running on the text as
rewritten by the previous passes. -/
def replace_with_regex (ctr : Counters) (text : PyStr) :
    PyStr × Replacements × Counters :=
  let st0 := (text, ([] : Replacements))
  let st1 := flatCategoryStep phonePatterns "[ТЕЛЕФОН]".data st0
  let st2 := flatCategoryStep emailPatterns "[EMAIL]".data st1
  let st3 := flatCategoryStep innPatterns "[ИНН]".data st2
  let st4 := flatCategoryStep binPatterns "[БИН]".data st3
  let st5 := flatCategoryStep snilsPatterns "[СНИЛС]".data st4
  let st6 := flatCategoryStep passportPatterns "[ПАСПОРТ]".data st5
  let st7 := flatCategoryStep license_platePatterns "[ГОСНОМЕР]".data st6
  let st8 := flatCategoryStep bank_accountPatterns "[СЧЕТ]".data st7
  let st9 := flatCategoryStep cardPatterns "[КАРТА]".data st8
  addressPatterns.foldl addressStep (st9.1, st9.2, ctr)

/-! ### `extract_entities_with_spacy` (`ner_service.py`, lines 218-267)

The SpaCy model is external to the repository: it is modelled as the list
of entities (`doc.ents`) it reports on the given text, each a surface
string with a label.  The function then
* deduplicates by exact (stripped) surface string, assigning one numbered
  placeholder per category at the first registered occurrence, and
* replaces each registered surface form by its placeholder with
  `re.sub(r'\b' + re.escape(original) + r'\b', placeholder, cleaned_text)`,
  i.e. literal matching of the surface form delimited by word boundaries.
-/

/-- One entity reported by the SpaCy model: `ent.text` and `ent.label_`. -/
structure Ent where
  text : PyStr
  label : String
deriving DecidableEq, Repr

/-- The generic location words excluded by the `LOC`/`GPE` filter. -/
def genericLocWords : List PyStr :=
  ["город".data, "село".data, "район".data, "область".data]

/-- The state of the entity loop: `entity_map`, `replacements` (updated in
lockstep by the source) and the global counters. -/
structure EntState where
  entity_map : Replacements
  replacements : Replacements
  ctr : Counters

/-- One iteration of the `for ent in doc.ents` loop. -/
def registerEnt (st : EntState) (e : Ent) : EntState :=
  let entity_text := pyStrip e.text
  if entity_text ∈ keysOf st.entity_map then st
  else if e.label = "PER" ∨ e.label = "PERSON" then
    let pc := get_person_placeholder st.ctr
    ⟨st.entity_map ++ [(entity_text, pc.1)], st.replacements ++ [(entity_text, pc.1)], pc.2⟩
  else if e.label = "ORG" then
    let pc := get_org_placeholder st.ctr
    ⟨st.entity_map ++ [(entity_text, pc.1)], st.replacements ++ [(entity_text, pc.1)], pc.2⟩
  else if e.label = "LOC" ∨ e.label = "GPE" then
    if 3 < entity_text.length ∧ pyLower entity_text ∉ genericLocWords then
      let pc := get_geo_placeholder st.ctr
      ⟨st.entity_map ++ [(entity_text, pc.1)], st.replacements ++ [(entity_text, pc.1)], pc.2⟩
    else st
  else st

/-- The `for ent in doc.ents` loop. -/
def registerEnts (st : EntState) (ents : List Ent) : EntState :=
  ents.foldl registerEnt st

/-- Does the word boundary `\b` hold between two adjacent (optional)
characters? -/
def boundaryBetween (l r : Option Char) : Bool := optIsWord l != optIsWord r

/-- Does `re.compile(r'\b' + re.escape(o) + r'\b')` match at the start of
`t`, when the character before `t` is `prev`?  (`o` is matched literally
because it is escaped.) -/
def matchHereB (o : PyStr) (prev : Option Char) (t : PyStr) : Bool :=
  o.isPrefixOf t && boundaryBetween prev o.head?
    && boundaryBetween o.getLast? ((t.drop o.length).head?)

/-- The scan of `re.sub(r'\b' + re.escape(o) + r'\b', ph, ·)` over the
suffix `t` whose preceding character is `prev` (fuel-bounded; a match
consumes `o.length ≥ 1` characters, a non-match one character). -/
def subWordBoundedGo (o ph : PyStr) : Nat → Option Char → PyStr → PyStr
  | 0, _, t => t
  | _ + 1, _, [] => []
  | f + 1, prev, c :: cs =>
    if 0 < o.length ∧ matchHereB o prev (c :: cs) then
      ph ++ subWordBoundedGo o ph f o.getLast? ((c :: cs).drop o.length)
    else c :: subWordBoundedGo o ph f (some c) cs

/-- `re.sub(r'\b' + re.escape(o) + r'\b', ph, t)` with the character
before `t` being `prev`: replace every leftmost non-overlapping
word-boundary-delimited occurrence of the literal `o`.  (For the
degenerate `o = []` the Python pattern is the zero-width `\b\b`; no entity
surface form is empty, and the model leaves the text unchanged then.) -/
def subWordBounded (o ph : PyStr) (prev : Option Char) (t : PyStr) : PyStr :=
  subWordBoundedGo o ph (t.length + 1) prev t

/-- The positions at which `subWordBounded` replaces an occurrence of `o`;
`base` is the absolute position of the start of the current suffix. -/
def matchPositionsGo (o : PyStr) : Nat → Option Char → Nat → PyStr → List Nat
  | 0, _, _, _ => []
  | _ + 1, _, _, [] => []
  | f + 1, prev, base, c :: cs =>
    if 0 < o.length ∧ matchHereB o prev (c :: cs) then
      base :: matchPositionsGo o f o.getLast? (base + o.length) ((c :: cs).drop o.length)
    else matchPositionsGo o f (some c) (base + 1) cs

/-- The replaced positions for the scan of the whole text `t`. -/
def matchPositions (o t : PyStr) : List Nat :=
  matchPositionsGo o (t.length + 1) none 0 t

/-- There is a word-boundary-delimited occurrence of `o` at offset `i` of
the suffix `t` whose preceding character is `prev`. -/
def occAtB (o : PyStr) (prev : Option Char) : PyStr → Nat → Bool
  | t, 0 => matchHereB o prev t
  | [], _ + 1 => false
  | c :: cs, i + 1 => occAtB o (some c) cs i

/-- `extract_entities_with_spacy` from `ner_service.py`, with the SpaCy
output `ents` passed explicitly.  Returns
`(cleaned_text, replacements, counters)`. -/
def extract_entities_with_spacy (ctr : Counters) (ents : List Ent) (text : PyStr) :
    PyStr × Replacements × Counters :=
  let st := registerEnts ⟨[], [], ctr⟩ ents
  let cleaned := st.replacements.foldl (fun t pr => subWordBounded pr.1 pr.2 none t) text
  (cleaned, st.replacements, st.ctr)

/-! ### `preprocess_with_ner` (`ner_service.py`, lines 270-338)

`load_spacy_models()` loads an external model and raises when it is not
installed; the model is passed here as `nlp : Option (PyStr → List Ent)`
(`none` = loading raises, `some f` = the model reports `f text` as
`doc.ents`).  The raise happens after the regex stage, is caught by the
surrounding `except`, and produces the failure dictionary — the regex
stage's output is discarded. -/

/-- The `stats` dictionary built by `preprocess_with_ner`. -/
structure Stats where
  total_replacements : Nat
  regex_replacements : Nat
  ner_replacements : Nat
  persons : Nat
  organizations : Nat
  locations : Nat
  addresses : Nat
deriving DecidableEq, Repr

/-- Python `{**a, **b}`: the keys of `a` in order (values overridden by `b`
on collision) followed by the keys of `b` not in `a`, in order. -/
def mergeDicts (a b : Replacements) : Replacements :=
  a.map (fun pr =>
    match b.lookup pr.1 with
    | some v => (pr.1, v)
    | none => pr) ++ b.filter (fun q => q.1 ∉ keysOf a)

/-- The result dictionary of `preprocess_with_ner` (`stats = none` models
the empty `{}` of the failure branch). -/
structure NerResult where
  preprocessed_text : Option PyStr
  original_text : PyStr
  replacements : Replacements
  stats : Option Stats
  success : Bool
  error : Option PyStr
deriving DecidableEq, Repr

/-- The error message of the failure branch when `load_spacy_models`
raises (`f"Error during NER preprocessing: {str(e)}"`). -/
def spacyFailMsg : PyStr :=
  ("Error during NER preprocessing: SpaCy model not found. " ++
   "Run: python -m spacy download ru_core_news_sm").data

/-- `preprocess_with_ner` from `ner_service.py`: reset the global
counters, run the regex stage, then the SpaCy stage.  Returns the result
dictionary together with the final state of the global counters. -/
def preprocess_with_ner (nlp : Option (PyStr → List Ent)) (st : Counters)
    (text : PyStr) : NerResult × Counters :=
  let c0 := reset_counters st
  let rr := replace_with_regex c0 text
  match nlp with
  | none => (⟨none, text, [], none, false, some spacyFailMsg⟩, rr.2.2)
  | some f =>
    let ex := extract_entities_with_spacy rr.2.2 (f rr.1) rr.1
    let allReps := mergeDicts rr.2.1 ex.2.1
    let c2 := ex.2.2
    let stats : Stats :=
      ⟨allReps.length, rr.2.1.length, ex.2.1.length, c2.person, c2.org, c2.geo, c2.address⟩
    (⟨some ex.1, text, allReps, some stats, true, none⟩, c2)

/-! ### The rewriter backends

`clean_text_with_ollama` (`llm_service.py`, lines 182-283) and
`clean_text_with_cloud_llm` (`llm_service_cloud.py`, lines 8-97) each issue
one network request.  The outcome of that external call is passed as an
explicit value: an exception (carrying the text `str(e)` would produce —
the only part of the exception either function ever puts in its result) or
a response body.  The prompt templates are opaque tokens: no claim depends
on their contents, only on which one is selected. -/

/-- The two prompt templates of `llm_service.py`
(`LLM_FINALIZATION_PROMPT` and `CLEANING_PROMPT`). -/
inductive PromptTemplate where
  | finalization
  | cleaning
deriving DecidableEq, Repr

/-- The result dictionary shared by all the cleaning functions
(`chunks_processed` is only present in the multi-chunk success result). -/
structure CleanResult where
  cleaned_text : Option PyStr
  original_length : Nat
  cleaned_length : Nat
  llm_model : String
  success : Bool
  error : Option PyStr
  chunks_processed : Option Nat := none
deriving DecidableEq, Repr

/-- Outcome of the single `requests.post` call of
`clean_text_with_ollama`: a `requests.exceptions.ConnectionError`, a
`requests.exceptions.Timeout`, any other exception (e.g. `HTTPError` from
`raise_for_status`), or a parsed JSON body whose `"response"` field is
`response` (`none` when the field is missing). -/
inductive OllamaOutcome where
  | connectionError (msg : PyStr)
  | timeoutError (msg : PyStr)
  | otherError (msg : PyStr)
  | ok (response : Option PyStr)

/-- `f"Failed to connect to Ollama at {ollama_url}. Is Ollama running?"`. -/
def ollamaConnMsg (url : PyStr) : PyStr :=
  "Failed to connect to Ollama at ".data ++ url ++ ". Is Ollama running?".data

/-- The timeout handler's message. -/
def ollamaTimeoutMsg : PyStr :=
  "Request to Ollama timed out. Try with a shorter text or increase timeout.".data

/-- `f"Error during text cleaning: {str(e)}"` (the generic handler). -/
def ollamaGenericPrefix : PyStr := "Error during text cleaning: ".data

/-- The `ValueError` raised on an empty model response. -/
def ollamaEmptyMsg : PyStr := "Ollama returned empty response".data

/-- `clean_text_with_ollama` from `llm_service.py`.  The three `except`
clauses are distinct: `ConnectionError` and `Timeout` have dedicated
handlers whose messages ignore the exception text, and everything else —
including the empty-response `ValueError` — reaches the generic handler,
which appends `str(e)`. -/
def clean_text_with_ollama (out : OllamaOutcome) (text ollama_url : PyStr)
    (model : String) : CleanResult :=
  match out with
  | .ok response =>
    let cleaned_text := response.getD []
    if cleaned_text.isEmpty then
      ⟨none, text.length, 0, model, false,
       some (ollamaGenericPrefix ++ ollamaEmptyMsg), none⟩
    else
      ⟨some (pyStrip cleaned_text), text.length, (pyStrip cleaned_text).length,
       model, true, none, none⟩
  | .connectionError _ =>
    ⟨none, text.length, 0, model, false, some (ollamaConnMsg ollama_url), none⟩
  | .timeoutError _ =>
    ⟨none, text.length, 0, model, false, some ollamaTimeoutMsg, none⟩
  | .otherError m =>
    ⟨none, text.length, 0, model, false, some (ollamaGenericPrefix ++ m), none⟩

/-- Outcome of the single `client.chat.completions.create` call of
`clean_text_with_cloud_llm`: a connection failure, a timeout, any other
exception, or a response whose first choice's `message.content` is
`content` (`none` when there are no choices or no content).  Each
exception constructor carries the text `str(e)` produces. -/
inductive CloudOutcome where
  | connectionError (msg : PyStr)
  | timeoutError (msg : PyStr)
  | otherError (msg : PyStr)
  | ok (content : Option PyStr)

/-- `f"Error during cloud LLM text cleaning: {str(e)}"`. -/
def cloudGenericPrefix : PyStr := "Error during cloud LLM text cleaning: ".data

/-- The `ValueError` raised on an empty cloud response. -/
def cloudEmptyMsg : PyStr := "Cloud LLM returned empty response".data

/-- `clean_text_with_cloud_llm` from `llm_service_cloud.py`.  Unlike the
Ollama backend it has a single `except Exception` handler: every failure —
connection error, timeout, or the empty-response `ValueError` — produces
the same generic message built from `str(e)`. -/
def clean_text_with_cloud_llm (out : CloudOutcome) (text : PyStr)
    (_prompt : PromptTemplate) (_base_url _api_key : PyStr) (model : String) :
    CleanResult :=
  match out with
  | .ok content =>
    let cleaned_text := content.getD []
    if cleaned_text.isEmpty then
      ⟨none, text.length, 0, model, false,
       some (cloudGenericPrefix ++ cloudEmptyMsg), none⟩
    else
      ⟨some (pyStrip cleaned_text), text.length, (pyStrip cleaned_text).length,
       model, true, none, none⟩
  | .connectionError m | .timeoutError m | .otherError m =>
    ⟨none, text.length, 0, model, false, some (cloudGenericPrefix ++ m), none⟩

/-! ### Chunked cleaning (`llm_service.py`, lines 367-437 and
`llm_service_cloud.py`, lines 149-226)

Both functions split the text, short-circuit on the first failing chunk
(`if not result["success"]: return result`) and otherwise join the cleaned
chunks with a blank line.  The per-chunk cleaning call is abstracted as
`cleanOne : PyStr → CleanResult` (instantiate with
`fun c => clean_text_with_ollama (outcome c) c url model` to recover the
concrete backend). -/

/-- The `for i, chunk in enumerate(chunks, 1)` loop shared by both chunked
cleaners: accumulates cleaned chunks and length totals, returning the
first failing chunk's result via `Sum.inl`. -/
def cleanChunksLoop (cleanOne : PyStr → CleanResult) :
    List PyStr → List PyStr × Nat × Nat → Sum CleanResult (List PyStr × Nat × Nat)
  | [], acc => .inr acc
  | c :: cs, acc =>
    let result := cleanOne c
    if result.success then
      cleanChunksLoop cleanOne cs
        (acc.1 ++ [result.cleaned_text.getD []],
         acc.2.1 + result.original_length, acc.2.2 + result.cleaned_length)
    else .inl result

/-- `clean_large_text_with_ollama` from `llm_service.py`. -/
def clean_large_text_with_ollama (cleanOne : PyStr → CleanResult)
    (text : PyStr) (model : String) (max_chunk_size : Nat) : CleanResult :=
  let chunks := chunk_text text max_chunk_size
  if chunks.length = 1 then cleanOne text
  else
    match cleanChunksLoop cleanOne chunks ([], 0, 0) with
    | .inl r => r
    | .inr acc =>
      ⟨some (joinSep sepBlank acc.1), acc.2.1, acc.2.2, model, true, none,
       some chunks.length⟩

/-- `clean_large_text_with_cloud_llm` from `llm_service_cloud.py` (same
aggregation; the prompt and credentials are baked into `cleanOne`). -/
def clean_large_text_with_cloud_llm (cleanOne : PyStr → CleanResult)
    (text : PyStr) (model : String) (max_chunk_size : Nat) : CleanResult :=
  let chunks := chunk_text text max_chunk_size
  if chunks.length = 1 then cleanOne text
  else
    match cleanChunksLoop cleanOne chunks ([], 0, 0) with
    | .inl r => r
    | .inr acc =>
      ⟨some (joinSep sepBlank acc.1), acc.2.1, acc.2.2, model, true, none,
       some chunks.length⟩

/-- The texts on which a chunked cleaner actually invokes the per-chunk
rewriter: the single-chunk branch passes the original `text` (not
`chunks[0]`, which may differ by stripping), the multi-chunk branch the
chunks themselves. -/
def invokedChunks (text : PyStr) (max_chunk_size : Nat) : List PyStr :=
  let chunks := chunk_text text max_chunk_size
  if chunks.length = 1 then [text] else chunks

/-! ### The orchestrators (`llm_service.py`, lines 444-676) -/

/-- The missing-credentials error message. -/
def missingCredsMsg : PyStr :=
  "base_url and api_key are required for cloud providers".data

/-- Python truthiness of an optional string (`not base_url` is `True` for
`None` and for the empty string). -/
def pyFalsy (o : Option PyStr) : Bool :=
  match o with
  | none => true
  | some s => s.isEmpty

/-- `clean_text_with_llm` from `llm_service.py`.  The backends are passed
as functions: `ollamaOne c` is what `clean_text_with_ollama` returns on
chunk `c`, and `cloudOne p c` what `clean_text_with_cloud_llm` returns on
chunk `c` with prompt template `p`. -/
def clean_text_with_llm (provider : String)
    (ollamaOne : PyStr → CleanResult)
    (cloudOne : PromptTemplate → PyStr → CleanResult)
    (model : String) (base_url api_key : Option PyStr) (text : PyStr) :
    CleanResult :=
  if provider = "ollama" then
    if 8000 < text.length then clean_large_text_with_ollama ollamaOne text model 8000
    else ollamaOne text
  else if pyFalsy base_url || pyFalsy api_key then
    ⟨none, text.length, 0, model, false, some missingCredsMsg, none⟩
  else if 12000 < text.length then
    clean_large_text_with_cloud_llm (cloudOne .cleaning) text model 12000
  else cloudOne .cleaning text

/-- The result dictionary of `clean_text_with_ner_and_llm` (fields that a
branch does not set model as `none`). -/
structure NerLlmResult where
  cleaned_text : Option PyStr
  original_text : Option PyStr
  preprocessed_text : Option PyStr
  original_length : Nat
  cleaned_length : Nat
  llm_model : String
  success : Bool
  error : Option PyStr
  ner_stats : Option Stats
  pipeline_used : Option String
deriving DecidableEq, Repr

/-- `clean_text_with_ner_and_llm` from `llm_service.py`: the two-stage
pipeline.  When the NER stage fails (`ner_result["success"]` false) the
orchestrator falls back to `preprocessed_text = text` — the raw input. -/
def clean_text_with_ner_and_llm (nlp : Option (PyStr → List Ent))
    (provider : String) (ollamaOne : PyStr → CleanResult)
    (cloudOne : PromptTemplate → PyStr → CleanResult) (model : String)
    (base_url api_key : Option PyStr) (use_ner : Bool) (st : Counters)
    (text : PyStr) : NerLlmResult :=
  let pre :=
    if use_ner then
      let ner_result := (preprocess_with_ner nlp st text).1
      if ner_result.success then
        (ner_result.preprocessed_text.getD [], ner_result.stats)
      else (text, (none : Option Stats))
    else (text, none)
  let preprocessed_text := pre.1
  let ner_stats := pre.2
  let prompt_template : PromptTemplate := if use_ner then .finalization else .cleaning
  let llm_result :=
    if provider = "ollama" then
      if 8000 < preprocessed_text.length then
        some (clean_large_text_with_ollama ollamaOne preprocessed_text model 8000)
      else some (ollamaOne preprocessed_text)
    else if pyFalsy base_url || pyFalsy api_key then none
    else some (cloudOne prompt_template preprocessed_text)
  match llm_result with
  | none =>
    ⟨none, none, none, text.length, 0, model, false, some missingCredsMsg, ner_stats, none⟩
  | some lr =>
    if lr.success then
      ⟨lr.cleaned_text, some text, if use_ner then some preprocessed_text else none,
       text.length, (lr.cleaned_text.getD []).length, model, true, none, ner_stats,
       some (if use_ner then "NER + LLM" else "LLM Only")⟩
    else
      ⟨none, none, none, text.length, 0, model, false, lr.error, ner_stats, none⟩

/-! ### Auxiliary definitions for the theorems -/

/-- A rewriter backend that succeeds and returns its input unchanged; used
to observe which text the orchestrator hands to the rewriter. -/
def echoClean : PyStr → CleanResult :=
  fun s => ⟨some s, s.length, s.length, "m", true, none, none⟩

/-- A rewriter backend that always fails (with `cleaned_text = None`, the
shape every failure result of the real backends has). -/
def alwaysFail : PyStr → CleanResult :=
  fun _ => ⟨none, 0, 0, "m", false, some "boom".data, none⟩

/-- Modelled from the spec's words for claim C3: a flat category pass in
which substitution of each matched value is performed by literal-substring
substitution of the exact matched literal (in the style of the address
pass), instead of re-running the regex over the text. -/
def flatCategoryStepLiteral (pats : List RE) (tag : PyStr)
    (st : PyStr × Replacements) : PyStr × Replacements :=
  pats.foldl (fun st pat =>
    let ms := reFindAll pat st.1
    ms.foldl (fun s m =>
      if m ∈ keysOf s.2 then s
      else (pyReplaceAll m tag s.1, s.2 ++ [(m, tag)])) st) st

/-- Modelled from the spec's words for claim C3: `replace_with_regex` as
the claim describes it, with literal-substring substitution for every
category. -/
def replace_with_regex_literal (ctr : Counters) (text : PyStr) :
    PyStr × Replacements × Counters :=
  let st0 := (text, ([] : Replacements))
  let st1 := flatCategoryStepLiteral phonePatterns "[ТЕЛЕФОН]".data st0
  let st2 := flatCategoryStepLiteral emailPatterns "[EMAIL]".data st1
  let st3 := flatCategoryStepLiteral innPatterns "[ИНН]".data st2
  let st4 := flatCategoryStepLiteral binPatterns "[БИН]".data st3
  let st5 := flatCategoryStepLiteral snilsPatterns "[СНИЛС]".data st4
  let st6 := flatCategoryStepLiteral passportPatterns "[ПАСПОРТ]".data st5
  let st7 := flatCategoryStepLiteral license_platePatterns "[ГОСНОМЕР]".data st6
  let st8 := flatCategoryStepLiteral bank_accountPatterns "[СЧЕТ]".data st7
  let st9 := flatCategoryStepLiteral cardPatterns "[КАРТА]".data st8
  addressPatterns.foldl addressStep (st9.1, st9.2, ctr)

/-- The nine flat categories of `REGEX_PATTERNS` in source order, with
their replacement tags. -/
def flatCats : List (List RE × PyStr) :=
  [(phonePatterns, "[ТЕЛЕФОН]".data), (emailPatterns, "[EMAIL]".data),
   (innPatterns, "[ИНН]".data), (binPatterns, "[БИН]".data),
   (snilsPatterns, "[СНИЛС]".data), (passportPatterns, "[ПАСПОРТ]".data),
   (license_platePatterns, "[ГОСНОМЕР]".data), (bank_accountPatterns, "[СЧЕТ]".data),
   (cardPatterns, "[КАРТА]".data)]

/-- `replace_with_regex` re-expressed as a sequential fold of the nine
flat regex-substitution passes followed by the literal-substitution
address pass, each pass running on the progressively rewritten text. -/
def replace_with_regex_passes (ctr : Counters) (text : PyStr) :
    PyStr × Replacements × Counters :=
  let st := flatCats.foldl (fun st pr => flatCategoryStep pr.1 pr.2 st)
    (text, ([] : Replacements))
  addressPatterns.foldl addressStep (st.1, st.2, ctr)

/-- The buffer `current_chunk` holds for a group `g` of accumulated
paragraphs: each paragraph followed by the blank-line separator. -/
def renderGroup (g : List PyStr) : PyStr :=
  (g.map (fun p => p ++ sepBlank)).flatten

/-- A paragraph is clean when it is non-empty and has no leading or
trailing whitespace (so `strip` leaves it unchanged). -/
def cleanPara (p : PyStr) : Prop := p ≠ [] ∧ pyStrip p = p

/-- The character immediately preceding the suffix after skipping `d`:
the last character of `d`, or `prev` when `d` is empty. -/
def lastCtx (d : PyStr) (prev : Option Char) : Option Char :=
  match d.getLast? with
  | some c => some c
  | none => prev

/-! ## Theorems -/

/-! ### C7: category isolation of the placeholder counters -/

theorem placeholderCall_fst (c : Counters) (k : Cat) :
    (placeholderCall c k).1 = placeholderTag k (catCount c k + 1) := by
  cases k <;> rfl

theorem catCount_call_self (c : Counters) (k : Cat) :
    catCount (placeholderCall c k).2 k = catCount c k + 1 := by
  cases k <;> rfl

theorem catCount_call_other (c : Counters) (k cat : Cat) (h : ¬ k = cat) :
    catCount (placeholderCall c k).2 cat = catCount c cat := by
  cases k <;> cases cat <;> first
    | rfl
    | exact absurd rfl h

theorem runAnnotated_filter_eq (seq : List Cat) : ∀ (c : Counters) (cat : Cat),
    ((runAnnotated c seq).filter (fun p => p.1 == cat)).map Prod.snd
      = (List.range (seq.count cat)).map
          (fun i => placeholderTag cat (catCount c cat + i + 1)) := by
  induction seq with
  | nil => intro c cat; simp [runAnnotated]
  | cons k ks ih =>
    intro c cat
    simp only [runAnnotated, List.filter_cons]
    by_cases hk : k = cat
    · subst hk
      have hb : (k == k) = true := by simp
      rw [if_pos hb, List.map_cons, List.count_cons_self, List.range_succ_eq_map,
        List.map_cons, List.map_map, ih, placeholderCall_fst]
      refine congrArg₂ List.cons (congrArg (placeholderTag k) (by omega)) ?_
      refine congrArg₂ List.map (funext fun i => ?_) rfl
      rw [catCount_call_self]
      exact congrArg (placeholderTag k) (by omega)
    · have hb : (k == cat) = false := by
        simp only [beq_eq_false_iff_ne, ne_eq]
        exact hk
      have hb2 : (cat == k) = false := by
        simp only [beq_eq_false_iff_ne, ne_eq]
        exact fun e => hk e.symm
      rw [if_neg (by simp [hb]), ih, catCount_call_other c k cat hk,
        List.count_cons, hb]
      simp

/-- C7: after `reset_counters`, for every interleaved sequence of calls to
the four placeholder getters, each category's placeholder numbers are
exactly 1, 2, 3, ... in the order of that category's own calls,
independent of the calls to the other categories. -/
theorem C7_category_isolation (c0 : Counters) (seq : List Cat) (cat : Cat) :
    ((runAnnotated (reset_counters c0) seq).filter (fun p => p.1 == cat)).map Prod.snd
      = (List.range (seq.count cat)).map (fun i => placeholderTag cat (i + 1)) := by
  rw [runAnnotated_filter_eq seq (reset_counters c0) cat]
  refine congrArg₂ List.map (funext fun i => ?_) rfl
  have h0 : catCount (reset_counters c0) cat = 0 := by cases cat <;> rfl
  rw [h0]
  exact congrArg (placeholderTag cat) (by omega)

/-! ### C9: no placeholder state leaks across documents -/

theorem reset_counters_const (st : Counters) : reset_counters st = freshCounters := rfl

theorem preprocess_with_ner_state_irrelevant (nlp : Option (PyStr → List Ent))
    (text : PyStr) (st st' : Counters) :
    preprocess_with_ner nlp st text = preprocess_with_ner nlp st' text := by
  unfold preprocess_with_ner
  rw [reset_counters_const st, reset_counters_const st']

/-- C9: running `preprocess_with_ner` on `t1` and then on `t2` produces for
`t2` exactly the same result dictionary (preprocessed text, replacements
and stats) as running it on `t2` alone from a fresh process state: the
counters are reset at the start of every document run, so no placeholder
state leaks across documents. -/
theorem C9_no_cross_document_state (nlp : Option (PyStr → List Ent))
    (t1 t2 : PyStr) (st : Counters) :
    (preprocess_with_ner nlp (preprocess_with_ner nlp st t1).2 t2).1
      = (preprocess_with_ner nlp freshCounters t2).1 :=
  congrArg Prod.fst
    (preprocess_with_ner_state_irrelevant nlp t2 (preprocess_with_ner nlp st t1).2
      freshCounters)

/-! ### C10: missing cloud credentials -/

/-- C10: with a non-ollama provider and a missing (or empty) `base_url` or
`api_key`, both `clean_text_with_llm` and `clean_text_with_ner_and_llm`
return the failure result with `success = False`, `cleaned_text = None`,
`original_length = len(text)` and the required-credentials error, and they
do so for every possible behaviour of the two backends — no model request
is issued. -/
theorem C10_missing_cloud_credentials (provider : String) (text : PyStr)
    (ollamaOne : PyStr → CleanResult) (cloudOne : PromptTemplate → PyStr → CleanResult)
    (model : String) (base_url api_key : Option PyStr)
    (nlp : Option (PyStr → List Ent)) (use_ner : Bool) (st : Counters)
    (r : NerLlmResult)
    (h1 : provider ≠ "ollama")
    (h2 : pyFalsy base_url = true ∨ pyFalsy api_key = true)
    (hr : r = clean_text_with_ner_and_llm nlp provider ollamaOne cloudOne model
            base_url api_key use_ner st text) :
    clean_text_with_llm provider ollamaOne cloudOne model base_url api_key text
      = ⟨none, text.length, 0, model, false, some missingCredsMsg, none⟩
    ∧ r.success = false ∧ r.cleaned_text = none
    ∧ r.original_length = text.length ∧ r.error = some missingCredsMsg := by
  have hfalsy : (pyFalsy base_url || pyFalsy api_key) = true := by
    rcases h2 with h | h <;> simp [h]
  constructor
  · rw [clean_text_with_llm, if_neg h1, if_pos hfalsy]
  · subst hr
    rw [clean_text_with_ner_and_llm]
    simp [if_neg h1, hfalsy]

/-- C10 witness: the theorem applied at a concrete provider, text and
backends with a missing `base_url`. -/
theorem C10_witness :
    clean_text_with_llm "openai"
        (fun _ => ⟨none, 0, 0, "m", false, none, none⟩)
        (fun _ _ => ⟨none, 0, 0, "m", false, none, none⟩) "m" none
        (some "key".data) "abc".data
      = ⟨none, 3, 0, "m", false, some missingCredsMsg, none⟩ :=
  (C10_missing_cloud_credentials "openai" "abc".data
    (fun _ => ⟨none, 0, 0, "m", false, none, none⟩)
    (fun _ _ => ⟨none, 0, 0, "m", false, none, none⟩) "m" none (some "key".data)
    none true freshCounters _ (by decide) (Or.inl rfl) rfl).1

/-! ### C2: failure modes of the two rewriter backends

The claim fails on the cloud backend: `clean_text_with_cloud_llm` has a
single `except Exception` handler, so a connection failure and a timeout
whose exceptions stringify identically produce *identical* failure
results — the failure modes are conflated into the one generic error and
are not distinguishable from the returned result. -/

/-- A list is distinct from another when their heads differ. -/
theorem pystr_ne_of_head (l1 l2 : PyStr) (h : l1.head? ≠ l2.head?) : l1 ≠ l2 :=
  fun e => h (congrArg List.head? e)

/-- C2 counterexample: in the cloud backend a connection failure and a
timeout (both stringifying to `"x"`) return identical failure results;
the two failure modes are conflated into the one generic error. -/
theorem C2_counterexample :
    clean_text_with_cloud_llm (.connectionError "x".data) "t".data .cleaning
        "u".data "k".data "m"
      = clean_text_with_cloud_llm (.timeoutError "x".data) "t".data .cleaning
        "u".data "k".data "m" := rfl

/-- C2 amended: the Ollama backend reports connection failure, timeout and
empty response with three pairwise distinct error messages (for every
server URL and every exception text), while the cloud backend funnels all
three through its single generic handler: the error is always
`"Error during cloud LLM text cleaning: " + str(e)`, so the modes are
distinguishable only through the exception text the client library
happens to produce. -/
theorem C2_amended (url t : PyStr) (model : String) (m m2 : PyStr) :
    ((clean_text_with_ollama (.connectionError m) t url model).error
        ≠ (clean_text_with_ollama (.timeoutError m2) t url model).error
      ∧ (clean_text_with_ollama (.connectionError m) t url model).error
        ≠ (clean_text_with_ollama (.ok none) t url model).error
      ∧ (clean_text_with_ollama (.timeoutError m) t url model).error
        ≠ (clean_text_with_ollama (.ok none) t url model).error)
    ∧ ((clean_text_with_cloud_llm (.connectionError m) t .cleaning url url model).error
        = some (cloudGenericPrefix ++ m)
      ∧ (clean_text_with_cloud_llm (.timeoutError m) t .cleaning url url model).error
        = some (cloudGenericPrefix ++ m)
      ∧ (clean_text_with_cloud_llm (.ok none) t .cleaning url url model).error
        = some (cloudGenericPrefix ++ cloudEmptyMsg)) := by
  have hC : (ollamaConnMsg url).head? = some 'F' := rfl
  have hT : ollamaTimeoutMsg.head? = some 'R' := rfl
  have hE : (ollamaGenericPrefix ++ ollamaEmptyMsg).head? = some 'E' := rfl
  refine ⟨⟨?_, ?_, ?_⟩, rfl, rfl, rfl⟩
  · intro h
    exact pystr_ne_of_head (ollamaConnMsg url) ollamaTimeoutMsg
      (by rw [hC, hT]; decide) (Option.some.inj h)
  · intro h
    exact pystr_ne_of_head (ollamaConnMsg url) (ollamaGenericPrefix ++ ollamaEmptyMsg)
      (by rw [hC, hE]; decide) (Option.some.inj h)
  · intro h
    exact pystr_ne_of_head ollamaTimeoutMsg (ollamaGenericPrefix ++ ollamaEmptyMsg)
      (by rw [hT, hE]; decide) (Option.some.inj h)

/-! ### C1: what the orchestrator passes to the rewriter when NER fails

The claim fails on the code: when `preprocess_with_ner` fails, its
`except` branch has already discarded the regex stage's output
(`preprocessed_text` is `None` in the failure dictionary), and
`clean_text_with_ner_and_llm` falls back to `preprocessed_text = text` —
the *raw* input, not the pattern-only cleaned text. -/

/-- C1 counterexample: with a failing entity-recognition stage (the SpaCy
model cannot be loaded) and an echoing rewriter, the orchestrator's output
echoes the raw input `"ИНН: 1234567890"`, while the pattern-only cleaned
text for that input is `"[ИНН]"` — so the rewriter received the raw text,
not the pattern-only cleaned text. -/
theorem C1_counterexample :
    (clean_text_with_ner_and_llm none "ollama" echoClean (fun _ t => echoClean t)
        "m" none none true freshCounters "ИНН: 1234567890".data).cleaned_text
      = some "ИНН: 1234567890".data
    ∧ (replace_with_regex (reset_counters freshCounters) "ИНН: 1234567890".data).1
      = "[ИНН]".data
    ∧ ("ИНН: 1234567890".data : PyStr) ≠ "[ИНН]".data := by
  refine ⟨?_, ?_, ?_⟩ <;> decide

/-- C1 amended: when the entity-recognition stage fails and the pipeline
degrades gracefully, `clean_text_with_ner_and_llm` passes the *raw* input
text to the generative rewriter (the pattern-only cleaned text is
discarded inside `preprocess_with_ner`'s exception handler): for every
behaviour of the rewriter, the orchestrator's result is built from the
rewriter's answer on the raw text. -/
theorem C1_ner_failure_passes_raw_text
    (text : PyStr) (ollamaOne : PyStr → CleanResult)
    (cloudOne : PromptTemplate → PyStr → CleanResult) (model : String)
    (base_url api_key : Option PyStr) (st : Counters) (r : NerLlmResult)
    (h : text.length ≤ 8000)
    (hr : r = clean_text_with_ner_and_llm none "ollama" ollamaOne cloudOne model
            base_url api_key true st text) :
    ((ollamaOne text).success = true →
       r.cleaned_text = (ollamaOne text).cleaned_text ∧ r.preprocessed_text = some text)
    ∧ ((ollamaOne text).success = false →
       r.success = false ∧ r.cleaned_text = none ∧ r.error = (ollamaOne text).error) := by
  have hner : (preprocess_with_ner none st text).1.success = false := rfl
  subst hr
  rw [clean_text_with_ner_and_llm]
  simp only [hner, Bool.false_eq_true, if_false, if_true, if_pos rfl,
    if_neg (by omega : ¬ 8000 < text.length)]
  constructor
  · intro hs
    simp [hs]
  · intro hs
    simp [hs]

/-- C1 witness for the amended theorem: at a concrete short text and the
echoing rewriter, the result echoes the raw input and records it as the
preprocessed text. -/
theorem C1_witness :
    (clean_text_with_ner_and_llm none "ollama" echoClean (fun _ t => echoClean t)
        "m" none none true freshCounters "abc".data).cleaned_text = some "abc".data
    ∧ (clean_text_with_ner_and_llm none "ollama" echoClean (fun _ t => echoClean t)
        "m" none none true freshCounters "abc".data).preprocessed_text
      = some "abc".data := by
  have h := (C1_ner_failure_passes_raw_text "abc".data echoClean
    (fun _ t => echoClean t) "m" none none freshCounters _ (by decide) rfl).1 rfl
  exact ⟨h.1, h.2⟩

/-! ### C3: how `replace_with_regex` substitutes matches -/

set_option maxRecDepth 4000 in
/-- C3 counterexample: for the nine flat categories substitution is done
by re-running the regex (`re.sub`), not by literal-substring substitution:
on `"1234567890 ab1234567890cd"` the code replaces only the
boundary-delimited match of the ten-digit pattern and leaves the embedded
copy of the matched literal intact, while literal-substring substitution
of the matched value would also rewrite the embedded copy. -/
theorem C3_counterexample :
    (replace_with_regex freshCounters "1234567890 ab1234567890cd".data).1
      = "[ИНН] ab1234567890cd".data
    ∧ (replace_with_regex_literal freshCounters "1234567890 ab1234567890cd".data).1
      = "[ИНН] ab[ИНН]cd".data
    ∧ ("[ИНН] ab1234567890cd".data : PyStr) ≠ "[ИНН] ab[ИНН]cd".data := by
  refine ⟨?_, ?_, ?_⟩ <;> decide

/-- C3 amended: in `replace_with_regex` only the address category
substitutes by literal-substring replacement of the exact matched value;
each of the nine flat categories substitutes by re-running its regex over
the text (`re.sub`); and the passes are sequential, each category's pass
fully resolving on the progressively rewritten text before the next
category's pass begins — the function equals the fold of the nine
regex-substitution passes followed by the literal-substitution address
pass. -/
theorem C3_amended_pass_structure (ctr : Counters) (text : PyStr) :
    replace_with_regex ctr text = replace_with_regex_passes ctr text := rfl

/-! ### C8: fail-fast aggregation of chunk results -/

theorem cleanChunksLoop_fail (cleanOne : PyStr → CleanResult) :
    ∀ (cs : List PyStr) (acc : List PyStr × Nat × Nat),
      (∃ c ∈ cs, (cleanOne c).success = false) →
      ∃ c ∈ cs, cleanChunksLoop cleanOne cs acc = .inl (cleanOne c)
        ∧ (cleanOne c).success = false := by
  intro cs
  induction cs with
  | nil => intro acc h; simp at h
  | cons c cs ih =>
    intro acc h
    by_cases hc : (cleanOne c).success = true
    · obtain ⟨d, hd, hdf⟩ := h
      rcases List.mem_cons.mp hd with hd | hd
      · subst hd; rw [hc] at hdf; cases hdf
      · obtain ⟨d', hd', he, hf⟩ := ih _ ⟨d, hd, hdf⟩
        exact ⟨d', List.mem_cons_of_mem c hd', by simpa [cleanChunksLoop, hc] using he, hf⟩
    · refine ⟨c, List.mem_cons_self c cs, ?_, by simpa using hc⟩
      simp [cleanChunksLoop, hc]

/-- C8: for both chunked cleaners, if any of the rewrites actually invoked
on the chunk sequence reports failure, the aggregation returns an overall
failure result with `success = False` and `cleaned_text = None` — never a
partially merged cleaned text.  (`hshape` is the shape invariant of the
real per-chunk cleaners: every failure result carries
`cleaned_text = None`.) -/
theorem C8_fail_fast_aggregation (cleanOne : PyStr → CleanResult)
    (text : PyStr) (M : Nat) (model : String)
    (hshape : ∀ c, (cleanOne c).success = false → (cleanOne c).cleaned_text = none)
    (hfail : ∃ c ∈ invokedChunks text M, (cleanOne c).success = false) :
    ((clean_large_text_with_ollama cleanOne text model M).success = false
      ∧ (clean_large_text_with_ollama cleanOne text model M).cleaned_text = none)
    ∧ ((clean_large_text_with_cloud_llm cleanOne text model M).success = false
      ∧ (clean_large_text_with_cloud_llm cleanOne text model M).cleaned_text = none) := by
  rw [invokedChunks] at hfail
  by_cases h1 : (chunk_text text M).length = 1
  · rw [if_pos h1] at hfail
    obtain ⟨c, hc, hf⟩ := hfail
    rw [List.mem_singleton] at hc
    subst hc
    rw [clean_large_text_with_ollama, clean_large_text_with_cloud_llm, if_pos h1]
    exact ⟨⟨hf, hshape _ hf⟩, hf, hshape _ hf⟩
  · rw [if_neg h1] at hfail
    obtain ⟨c, hc, he, hf⟩ := cleanChunksLoop_fail cleanOne _ ([], 0, 0) hfail
    rw [clean_large_text_with_ollama, clean_large_text_with_cloud_llm, if_neg h1, he]
    exact ⟨⟨hf, hshape _ hf⟩, hf, hshape _ hf⟩

/-- C8 witness: a concrete single-chunk text whose rewrite fails yields the
overall failure result for both chunked cleaners. -/
theorem C8_witness :
    (clean_large_text_with_ollama alwaysFail "abc".data "m" 10).success = false
    ∧ (clean_large_text_with_ollama alwaysFail "abc".data "m" 10).cleaned_text = none
    ∧ (clean_large_text_with_cloud_llm alwaysFail "abc".data "m" 10).cleaned_text = none := by
  have h := C8_fail_fast_aggregation alwaysFail "abc".data 10 "m"
    (fun _ _ => rfl) ⟨"abc".data, by decide, rfl⟩
  exact ⟨h.1.1, h.1.2, h.2.2⟩

/-! ### Helper lemmas on stripping, splitting and joining -/

theorem sepBlank_ws : ∀ c ∈ sepBlank, pyIsSpace c = true := by decide

theorem pyLStrip_length_le (s : PyStr) : (pyLStrip s).length ≤ s.length :=
  (List.dropWhile_suffix pyIsSpace).length_le

theorem pyRStrip_length_le (s : PyStr) : (pyRStrip s).length ≤ s.length := by
  rw [pyRStrip, List.length_reverse]
  calc (s.reverse.dropWhile pyIsSpace).length ≤ s.reverse.length :=
        (List.dropWhile_suffix pyIsSpace).length_le
    _ = s.length := List.length_reverse s

theorem pyStrip_length_le (s : PyStr) : (pyStrip s).length ≤ s.length :=
  le_trans (pyRStrip_length_le (pyLStrip s)) (pyLStrip_length_le s)

theorem pyRStrip_append_ws (y z : PyStr) (hz : ∀ c ∈ z, pyIsSpace c = true) :
    pyRStrip (y ++ z) = pyRStrip y := by
  rw [pyRStrip, pyRStrip, List.reverse_append, List.dropWhile_append]
  have hall : z.reverse.dropWhile pyIsSpace = [] := by
    rw [List.dropWhile_eq_nil_iff]
    intro c hc
    exact hz c (List.mem_reverse.mp hc)
  rw [hall]
  rfl

theorem pyStrip_append_ws (x z : PyStr) (hz : ∀ c ∈ z, pyIsSpace c = true) :
    pyStrip (x ++ z) = pyStrip x := by
  rw [pyStrip, pyStrip, pyLStrip, pyLStrip, List.dropWhile_append]
  by_cases hx : (x.dropWhile pyIsSpace).isEmpty = true
  · rw [if_pos hx]
    have h1 : z.dropWhile pyIsSpace = [] := by
      rw [List.dropWhile_eq_nil_iff]
      exact hz
    rw [h1, List.isEmpty_iff.mp hx]
  · rw [if_neg hx]
    exact pyRStrip_append_ws _ z hz

theorem pyStrip_append_sep (x : PyStr) : pyStrip (x ++ sepBlank) = pyStrip x :=
  pyStrip_append_ws x sepBlank sepBlank_ws

theorem pyLStrip_eq_self_parts (p : PyStr) (h : pyStrip p = p) :
    pyLStrip p = p ∧ pyRStrip p = p := by
  have h1 : (pyLStrip p).length ≤ p.length := pyLStrip_length_le p
  have h2 : (pyStrip p).length ≤ (pyLStrip p).length := pyRStrip_length_le _
  have hlen : (pyLStrip p).length = p.length := by
    rw [h] at h2
    omega
  have hl : pyLStrip p = p :=
    (List.dropWhile_suffix pyIsSpace).eq_of_length hlen
  refine ⟨hl, ?_⟩
  rw [pyStrip, hl] at h
  exact h

theorem head_not_ws_of_lstrip (c : Char) (cs : PyStr)
    (h : pyLStrip (c :: cs) = c :: cs) : pyIsSpace c = false := by
  by_cases hc : pyIsSpace c = true
  · rw [pyLStrip, List.dropWhile_cons, if_pos hc] at h
    have := congrArg List.length h
    have hle := (List.dropWhile_suffix (l := cs) pyIsSpace).length_le
    simp only [List.length_cons] at this
    omega
  · simpa using hc

theorem pyLStrip_cons_of_not_ws (c : Char) (cs : PyStr) (hc : pyIsSpace c = false) :
    pyLStrip (c :: cs) = c :: cs := by
  rw [pyLStrip, List.dropWhile_cons, hc]
  simp

theorem pyRStrip_append_of_clean (a b : PyStr) (hb : pyRStrip b = b) (hne : b ≠ []) :
    pyRStrip (a ++ b) = a ++ b := by
  rw [pyRStrip, List.reverse_append, List.dropWhile_append]
  have hrev : b.reverse.dropWhile pyIsSpace = b.reverse := by
    rw [pyRStrip] at hb
    have := congrArg List.reverse hb
    rwa [List.reverse_reverse] at this
  have hempty : (b.reverse.dropWhile pyIsSpace).isEmpty = false := by
    rw [hrev]
    exact List.isEmpty_eq_false.mpr (by simpa using hne)
  rw [hempty]
  simp only [Bool.false_eq_true, if_false, hrev]
  rw [← List.reverse_append]
  exact List.reverse_reverse _

theorem joinSep_cons_of_ne (sep : PyStr) (a : PyStr) (l : List PyStr) (h : l ≠ []) :
    joinSep sep (a :: l) = a ++ sep ++ joinSep sep l := by
  cases l with
  | nil => exact absurd rfl h
  | cons b l => rfl

theorem joinSep_ne_nil (sep : PyStr) (l : List PyStr) (hhead : ∀ p ∈ l, p ≠ [])
    (hne : l ≠ []) : joinSep sep l ≠ [] := by
  cases l with
  | nil => exact absurd rfl hne
  | cons a l =>
    cases l with
    | nil => exact hhead a (List.mem_singleton.mpr rfl)
    | cons b l =>
      show a ++ sep ++ joinSep sep (b :: l) ≠ []
      have : a ≠ [] := hhead a (by simp)
      simp [this]

theorem joinSep_append (sep : PyStr) :
    ∀ (l1 l2 : List PyStr), l1 ≠ [] → l2 ≠ [] →
      joinSep sep (l1 ++ l2) = joinSep sep l1 ++ sep ++ joinSep sep l2 := by
  intro l1
  induction l1 with
  | nil => intro l2 h1 _; exact absurd rfl h1
  | cons a l1 ih =>
    intro l2 h1 h2
    cases l1 with
    | nil =>
      cases l2 with
      | nil => exact absurd rfl h2
      | cons b l2 => rfl
    | cons c l1 =>
      have hne : (c :: l1) ++ l2 ≠ [] := by simp
      rw [List.cons_append, joinSep_cons_of_ne sep a _ hne,
        joinSep_cons_of_ne sep a (c :: l1) (by simp),
        ih l2 (by simp) h2]
      simp [List.append_assoc]

theorem joinSep_map_flatten (sep : PyStr) :
    ∀ (groups : List (List PyStr)), (∀ g ∈ groups, g ≠ []) →
      joinSep sep (groups.map (joinSep sep)) = joinSep sep groups.flatten := by
  intro groups
  induction groups with
  | nil => intro _; rfl
  | cons g gs ih =>
    intro hne
    cases gs with
    | nil => simp [joinSep, renderGroup]
    | cons g2 gs2 =>
      have hg : g ≠ [] := hne g (by simp)
      have hflat : (g2 :: gs2).flatten ≠ [] := by
        rw [List.flatten_ne_nil_iff]
        exact ⟨g2, by simp, hne g2 (by simp)⟩
      have hmapne : (g2 :: gs2).map (joinSep sep) ≠ [] := by simp
      rw [List.map_cons, joinSep_cons_of_ne sep _ _ hmapne,
        ih (fun h hh => hne h (List.mem_cons_of_mem g hh))]
      rw [show (g :: g2 :: gs2).flatten = g ++ (g2 :: gs2).flatten from rfl,
        joinSep_append sep g _ hg hflat]

theorem renderGroup_singleton (p : PyStr) : renderGroup [p] = p ++ sepBlank := by
  simp [renderGroup]

theorem renderGroup_append_single (g : List PyStr) (p : PyStr) :
    renderGroup g ++ p ++ sepBlank = renderGroup (g ++ [p]) := by
  simp [renderGroup, List.append_assoc]

theorem renderGroup_ne_nil (g : List PyStr) (h : g ≠ []) : renderGroup g ≠ [] := by
  cases g with
  | nil => exact absurd rfl h
  | cons p g =>
    have he : renderGroup (p :: g) = (p ++ sepBlank) ++ renderGroup g := by
      simp [renderGroup]
    rw [he]
    intro hc
    rcases List.append_eq_nil.mp hc with ⟨h1, _⟩
    rcases List.append_eq_nil.mp h1 with ⟨_, h2⟩
    exact absurd h2 (by decide)

theorem renderGroup_eq_joinSep (g : List PyStr) (h : g ≠ []) :
    renderGroup g = joinSep sepBlank g ++ sepBlank := by
  induction g with
  | nil => exact absurd rfl h
  | cons p g ih =>
    cases g with
    | nil => simp [renderGroup, joinSep]
    | cons q g2 =>
      have : renderGroup (p :: q :: g2) = (p ++ sepBlank) ++ renderGroup (q :: g2) := by
        simp [renderGroup]
      rw [this, ih (by simp), joinSep_cons_of_ne sepBlank p (q :: g2) (by simp)]
      simp [List.append_assoc]

theorem renderGroup_length_eq (g : List PyStr) (h : g ≠ []) :
    (renderGroup g).length = (joinSep sepBlank g).length + 2 := by
  rw [renderGroup_eq_joinSep g h, List.length_append]
  rfl

theorem pyStrip_renderGroup_le (g : List PyStr) (h : g ≠ []) :
    (pyStrip (renderGroup g)).length + 2 ≤ (renderGroup g).length := by
  rw [renderGroup_eq_joinSep g h, pyStrip_append_sep, List.length_append]
  have := pyStrip_length_le (joinSep sepBlank g)
  have h2 : sepBlank.length = 2 := rfl
  omega

theorem pySplitGo_ne_nil (sep : PyStr) :
    ∀ (f : Nat) (s cur : PyStr), pySplitGo sep f s cur ≠ [] := by
  intro f
  induction f with
  | zero => intro s cur; simp [pySplitGo]
  | succ f ih =>
    intro s cur
    cases s with
    | nil => simp [pySplitGo]
    | cons c cs =>
      rw [pySplitGo]
      by_cases h : sep.isPrefixOf (c :: cs) = true
      · rw [if_pos h]; simp
      · rw [if_neg h]; exact ih cs (c :: cur)

theorem pySplit_ne_nil (sep s : PyStr) : pySplit sep s ≠ [] := by
  rw [pySplit]
  by_cases h : sep = []
  · rw [if_pos h]; simp
  · rw [if_neg h]; exact pySplitGo_ne_nil sep (s.length + 1) s []

theorem pySplitGo_joinSep (sep : PyStr) (hsep : sep ≠ []) :
    ∀ (f : Nat) (s cur : PyStr), s.length < f →
      joinSep sep (pySplitGo sep f s cur) = cur.reverse ++ s := by
  intro f
  induction f with
  | zero => intro s cur h; omega
  | succ f ih =>
    intro s cur h
    cases s with
    | nil => simp [pySplitGo, joinSep]
    | cons c cs =>
      rw [pySplitGo]
      have hsl : 1 ≤ sep.length := by
        cases sep with
        | nil => exact absurd rfl hsep
        | cons a l => simp
      by_cases hp : sep.isPrefixOf (c :: cs) = true
      · rw [if_pos hp]
        have hpre : sep <+: (c :: cs) := List.isPrefixOf_iff_prefix.mp hp
        have heq : sep ++ (c :: cs).drop sep.length = c :: cs :=
          List.prefix_iff_eq_append.mp hpre
        have hlen : ((c :: cs).drop sep.length).length < f := by
          have h2 := congrArg List.length heq
          simp only [List.length_append, List.length_cons] at h2 h
          omega
        rw [joinSep_cons_of_ne sep _ _ (pySplitGo_ne_nil sep f _ []),
          ih _ [] hlen]
        simp only [List.reverse_nil, List.nil_append]
        rw [List.append_assoc, heq]
      · rw [if_neg hp]
        rw [ih cs (c :: cur) (by simp at h ⊢; omega)]
        simp

theorem pySplit_joinSep (sep s : PyStr) (hsep : sep ≠ []) :
    joinSep sep (pySplit sep s) = s := by
  rw [pySplit, if_neg hsep]
  simpa using pySplitGo_joinSep sep hsep (s.length + 1) s [] (by omega)

/-! ### The grouping structure of `chunk_text` -/

theorem chunkGo_groups (M : Nat) :
    ∀ (ps : List PyStr) (g : List PyStr), g ≠ [] →
      (2 ≤ g.length → (renderGroup g).length ≤ M + 2) →
      ∃ groups : List (List PyStr),
        chunkGo M ps (renderGroup g) = groups.map (fun h => pyStrip (renderGroup h))
        ∧ groups.flatten = g ++ ps
        ∧ ∀ h ∈ groups, h ≠ [] ∧ (2 ≤ h.length → (renderGroup h).length ≤ M + 2) := by
  intro ps
  induction ps with
  | nil =>
    intro g hg hb
    refine ⟨[g], ?_, by simp, ?_⟩
    · rw [chunkGo, List.isEmpty_eq_false.mpr (renderGroup_ne_nil g hg)]
      simp
    · intro h hh
      rw [List.mem_singleton.mp hh]
      exact ⟨hg, hb⟩
  | cons p ps ih =>
    intro g hg hb
    rw [chunkGo]
    by_cases hacc : (renderGroup g).length + p.length ≤ M
    · rw [if_pos hacc, renderGroup_append_single]
      have hb' : 2 ≤ (g ++ [p]).length → (renderGroup (g ++ [p])).length ≤ M + 2 := by
        intro _
        rw [← renderGroup_append_single]
        simp only [List.length_append]
        have hs2 : sepBlank.length = 2 := rfl
        omega
      obtain ⟨groups, h1, h2, h3⟩ := ih (g ++ [p]) (by simp) hb'
      refine ⟨groups, h1, ?_, h3⟩
      rw [h2, List.append_assoc]
      rfl
    · rw [if_neg hacc, List.isEmpty_eq_false.mpr (renderGroup_ne_nil g hg),
        ← renderGroup_singleton]
      have hb1 : 2 ≤ ([p] : List PyStr).length → (renderGroup [p]).length ≤ M + 2 := by
        intro h2
        exact absurd h2 (by simp)
      obtain ⟨groups, h1, h2, h3⟩ := ih [p] (by simp) hb1
      refine ⟨g :: groups, ?_, ?_, ?_⟩
      · rw [List.map_cons, h1]
        simp
      · rw [List.flatten_cons, h2]
        rfl
      · intro h hh
        rcases List.mem_cons.mp hh with hh | hh
        · subst hh; exact ⟨hg, hb⟩
        · exact h3 h hh

theorem chunkGo_nil_start (M : Nat) (p : PyStr) (ps : List PyStr) :
    chunkGo M (p :: ps) [] = chunkGo M ps (renderGroup [p]) := by
  rw [chunkGo, renderGroup_singleton]
  by_cases h : ([] : PyStr).length + p.length ≤ M
  · rw [if_pos h]
    rfl
  · rw [if_neg h]
    rfl

theorem chunk_text_groups (text : PyStr) (M : Nat) (h : M < text.length) :
    ∃ groups : List (List PyStr),
      chunk_text text M = groups.map (fun g => pyStrip (renderGroup g))
      ∧ groups.flatten = pySplit sepBlank text
      ∧ ∀ g ∈ groups, g ≠ [] ∧ (2 ≤ g.length → (renderGroup g).length ≤ M + 2) := by
  rw [chunk_text, if_neg (by omega)]
  rcases hps : pySplit sepBlank text with _ | ⟨p, ps⟩
  · exact absurd hps (pySplit_ne_nil sepBlank text)
  · rw [chunkGo_nil_start]
    have hb1 : 2 ≤ ([p] : List PyStr).length → (renderGroup [p]).length ≤ M + 2 := by
      intro h2
      exact absurd h2 (by simp)
    obtain ⟨groups, h1, h2, h3⟩ := chunkGo_groups M ps [p] (by simp) hb1
    exact ⟨groups, h1, by rw [h2]; rfl, h3⟩

/-! ### C5: chunk order and size bound -/

/-- C5: every chunk produced by `chunk_text` appears in source order — the
chunk list is the image of a partition of the paragraph sequence into
consecutive non-empty groups — and each chunk has length at most
`max_chunk_size`, except that a chunk consisting of a single paragraph
whose own length exceeds the bound is emitted as its own oversized chunk
(the stripped paragraph itself); chunking never splits mid-paragraph to
enforce the bound. -/
theorem C5_chunk_order_and_size (text : PyStr) (M : Nat) :
    (text.length ≤ M → chunk_text text M = [text])
    ∧ (M < text.length →
        ∃ groups : List (List PyStr),
          groups.flatten = pySplit sepBlank text
          ∧ (∀ g ∈ groups, g ≠ [])
          ∧ chunk_text text M = groups.map (fun g => pyStrip (renderGroup g))
          ∧ ∀ c ∈ chunk_text text M,
              c.length ≤ M
              ∨ ∃ p ∈ pySplit sepBlank text, M < p.length ∧ c = pyStrip p) := by
  constructor
  · intro h
    rw [chunk_text, if_pos h]
  · intro hM
    obtain ⟨groups, h1, h2, h3⟩ := chunk_text_groups text M hM
    refine ⟨groups, h2, fun g hg => (h3 g hg).1, h1, ?_⟩
    intro c hc
    rw [h1] at hc
    obtain ⟨g, hg, hgc⟩ := List.mem_map.mp hc
    have hgne := (h3 g hg).1
    by_cases h2len : 2 ≤ g.length
    · left
      have hbound := (h3 g hg).2 h2len
      have hle := pyStrip_renderGroup_le g hgne
      rw [← hgc]
      omega
    · have hlen1 : g.length = 1 := by
        have := List.length_pos.mpr hgne
        omega
      obtain ⟨p, hp⟩ := List.length_eq_one.mp hlen1
      subst hp
      have hcp : c = pyStrip p := by
        rw [← hgc, renderGroup_singleton, pyStrip_append_sep]
      have hpmem : p ∈ pySplit sepBlank text := by
        rw [← h2]
        exact List.mem_flatten.mpr ⟨[p], hg, by simp⟩
      by_cases hple : p.length ≤ M
      · left
        rw [hcp]
        exact le_trans (pyStrip_length_le p) hple
      · right
        exact ⟨p, hpmem, by omega, hcp⟩

/-- C5 witness: a short text is returned whole, and a concrete long text
is partitioned into paragraph groups with every chunk within the bound or
an oversized single paragraph. -/
theorem C5_witness :
    chunk_text "ab".data 5 = ["ab".data]
    ∧ ∃ groups : List (List PyStr),
        groups.flatten = pySplit sepBlank "aaa\n\nbbbb".data
        ∧ (∀ g ∈ groups, g ≠ [])
        ∧ chunk_text "aaa\n\nbbbb".data 4
          = groups.map (fun g => pyStrip (renderGroup g))
        ∧ ∀ c ∈ chunk_text "aaa\n\nbbbb".data 4,
            c.length ≤ 4
            ∨ ∃ p ∈ pySplit sepBlank "aaa\n\nbbbb".data, 4 < p.length ∧ c = pyStrip p :=
  ⟨(C5_chunk_order_and_size "ab".data 5).1 (by decide),
   (C5_chunk_order_and_size "aaa\n\nbbbb".data 4).2 (by decide)⟩

/-! ### C4: chunk count and round-trip size -/

theorem pyLStrip_append_left (p y : PyStr) (hp : pyLStrip p = p) (hne : p ≠ []) :
    pyLStrip (p ++ y) = p ++ y := by
  cases p with
  | nil => exact absurd rfl hne
  | cons c cs =>
    have hcw := head_not_ws_of_lstrip c cs hp
    rw [List.cons_append]
    exact pyLStrip_cons_of_not_ws c (cs ++ y) hcw

theorem pyStrip_joinSep_clean :
    ∀ (g : List PyStr), g ≠ [] → (∀ p ∈ g, p ≠ [] ∧ pyStrip p = p) →
      pyStrip (joinSep sepBlank g) = joinSep sepBlank g := by
  intro g
  induction g with
  | nil => intro h _; exact absurd rfl h
  | cons p g ih =>
    intro _ hc
    cases g with
    | nil => exact (hc p (by simp)).2
    | cons q g2 =>
      have hp := hc p (by simp)
      have hrest : pyStrip (joinSep sepBlank (q :: g2)) = joinSep sepBlank (q :: g2) :=
        ih (by simp) (fun r hr => hc r (List.mem_cons_of_mem p hr))
      have hrestne : joinSep sepBlank (q :: g2) ≠ [] :=
        joinSep_ne_nil sepBlank (q :: g2)
          (fun r hr => (hc r (List.mem_cons_of_mem p hr)).1) (by simp)
      have hlp := (pyLStrip_eq_self_parts p hp.2).1
      have hrp := (pyLStrip_eq_self_parts _ hrest).2
      rw [joinSep_cons_of_ne sepBlank p (q :: g2) (by simp), pyStrip,
        List.append_assoc, pyLStrip_append_left p _ hlp hp.1, ← List.append_assoc]
      exact pyRStrip_append_of_clean (p ++ sepBlank) _ hrp hrestne

/-- C4 counterexample: for `text = " aaaaa"` (length 6) and
`max_chunk_chars = 5` the claim fails: `chunk_text` returns a single chunk
(not at least 2), and the sum of the chunk lengths is 5, not the original
length 6 (the leading space of the lone paragraph is stripped away). -/
theorem C4_counterexample :
    chunk_text " aaaaa".data 5 = ["aaaaa".data]
    ∧ (chunk_text " aaaaa".data 5).length = 1
    ∧ ((chunk_text " aaaaa".data 5).map List.length).sum = 5
    ∧ (" aaaaa".data : PyStr).length = 6 := by
  refine ⟨?_, ?_, ?_, ?_⟩ <;> decide

/-- C4 amended: for a text of length `L > M` that splits into at least two
blank-line-separated paragraphs, all non-empty and free of leading and
trailing whitespace, `chunk_text` returns at least 2 chunks and joining
the chunks with the blank-line separator reproduces the text exactly — so
the total character content is preserved (the sum of chunk lengths is `L`
minus the separators between chunks) and no chunk boundary splits a
paragraph.  (Without these conditions the claim fails, as the
counterexample shows: a single oversized paragraph yields one chunk, and
`strip` drops edge whitespace.) -/
theorem C4_chunk_roundtrip (text : PyStr) (M : Nat)
    (hM : M < text.length)
    (hn : 2 ≤ (pySplit sepBlank text).length)
    (hclean : ∀ p ∈ pySplit sepBlank text, p ≠ [] ∧ pyStrip p = p) :
    2 ≤ (chunk_text text M).length
    ∧ joinSep sepBlank (chunk_text text M) = text := by
  obtain ⟨groups, h1, h2, h3⟩ := chunk_text_groups text M hM
  have hgne : ∀ g ∈ groups, g ≠ [] := fun g hg => (h3 g hg).1
  have hclean2 : ∀ g ∈ groups, ∀ p ∈ g, p ≠ [] ∧ pyStrip p = p := by
    intro g hg p hp
    refine hclean p ?_
    rw [← h2]
    exact List.mem_flatten.mpr ⟨g, hg, hp⟩
  have hmap : chunk_text text M = groups.map (joinSep sepBlank) := by
    rw [h1]
    apply List.map_congr_left
    intro g hg
    rw [renderGroup_eq_joinSep g (hgne g hg), pyStrip_append_sep]
    exact pyStrip_joinSep_clean g (hgne g hg) (hclean2 g hg)
  constructor
  · rcases hgr : groups with _ | ⟨g, _ | ⟨g2, gs⟩⟩
    · exfalso
      rw [hgr] at h2
      rw [← h2] at hn
      simp at hn
    · exfalso
      have hgmem : g ∈ groups := by rw [hgr]; simp
      have hgeq : g = pySplit sepBlank text := by
        rw [hgr] at h2
        simpa using h2
      have hlen2 : 2 ≤ g.length := by rw [hgeq]; exact hn
      have hbound := (h3 g hgmem).2 hlen2
      rw [renderGroup_length_eq g (hgne g hgmem)] at hbound
      have hjoin : joinSep sepBlank g = text := by
        rw [hgeq]
        exact pySplit_joinSep sepBlank text (by decide)
      rw [hjoin] at hbound
      omega
    · rw [h1, hgr]
      simp
  · rw [hmap, joinSep_map_flatten sepBlank groups hgne, h2,
      pySplit_joinSep sepBlank text (by decide)]

/-- C4 witness for the amended theorem: a concrete clean two-paragraph text
is split into 2 chunks whose blank-line join is the original text. -/
theorem C4_witness :
    2 ≤ (chunk_text "aaa\n\nbbb".data 5).length
    ∧ joinSep sepBlank (chunk_text "aaa\n\nbbb".data 5) = "aaa\n\nbbb".data :=
  C4_chunk_roundtrip "aaa\n\nbbb".data 5 (by decide) (by decide) (by decide)

/-! ### C6: entity deduplication and word-boundary replacement -/

theorem registerEnt_skip (st : EntState) (e : Ent)
    (h : pyStrip e.text ∈ keysOf st.entity_map) : registerEnt st e = st := by
  rw [registerEnt, if_pos h]

theorem registerEnts_append (st : EntState) (l1 l2 : List Ent) :
    registerEnts st (l1 ++ l2) = registerEnts (registerEnts st l1) l2 :=
  List.foldl_append registerEnt st l1 l2

theorem registerEnt_good (st : EntState) (e : Ent)
    (h1 : st.entity_map = st.replacements) (h2 : (keysOf st.replacements).Nodup) :
    (registerEnt st e).entity_map = (registerEnt st e).replacements
    ∧ (keysOf (registerEnt st e).replacements).Nodup := by
  rw [registerEnt]
  by_cases hmem : pyStrip e.text ∈ keysOf st.entity_map
  · rw [if_pos hmem]
    exact ⟨h1, h2⟩
  · have hmem2 : pyStrip e.text ∉ keysOf st.replacements := by
      rw [← h1]; exact hmem
    have hnodup : ∀ ph : PyStr,
        (keysOf (st.replacements ++ [(pyStrip e.text, ph)])).Nodup := by
      intro ph
      rw [keysOf, List.map_append]
      rw [List.nodup_append]
      refine ⟨h2, List.nodup_singleton _, ?_⟩
      intro a ha hb
      rw [List.map_singleton, List.mem_singleton] at hb
      subst hb
      exact hmem2 ha
    rw [if_neg hmem]
    split_ifs <;> first
      | exact ⟨h1, h2⟩
      | exact ⟨by rw [h1], hnodup _⟩

theorem registerEnts_good (ents : List Ent) : ∀ (st : EntState),
    st.entity_map = st.replacements → (keysOf st.replacements).Nodup →
    (registerEnts st ents).entity_map = (registerEnts st ents).replacements
      ∧ (keysOf (registerEnts st ents).replacements).Nodup := by
  induction ents with
  | nil => intro st h1 h2; exact ⟨h1, h2⟩
  | cons e es ih =>
    intro st h1 h2
    have hg := registerEnt_good st e h1 h2
    exact ih (registerEnt st e) hg.1 hg.2

theorem registerEnts_dup (ctr : Counters) (pre suf : List Ent) (e : Ent)
    (h : pyStrip e.text ∈ keysOf (registerEnts ⟨[], [], ctr⟩ pre).entity_map) :
    registerEnts ⟨[], [], ctr⟩ (pre ++ e :: suf)
      = registerEnts ⟨[], [], ctr⟩ (pre ++ suf) := by
  rw [registerEnts_append, registerEnts_append]
  show registerEnts (registerEnt (registerEnts ⟨[], [], ctr⟩ pre) e) suf
    = registerEnts (registerEnts ⟨[], [], ctr⟩ pre) suf
  rw [registerEnt_skip _ e h]

theorem occAtB_shift (o : PyStr) :
    ∀ (d : PyStr) (prev : Option Char) (t : PyStr) (i : Nat),
      occAtB o prev (d ++ t) (d.length + i) = occAtB o (lastCtx d prev) t i := by
  intro d
  induction d with
  | nil =>
    intro prev t i
    simp [lastCtx]
  | cons c d ih =>
    intro prev t i
    have hidx : (c :: d).length + i = (d.length + i) + 1 := by
      simp only [List.length_cons]
      omega
    rw [hidx, List.cons_append]
    have hstep : occAtB o prev (c :: (d ++ t)) ((d.length + i) + 1)
        = occAtB o (some c) (d ++ t) (d.length + i) := rfl
    rw [hstep, ih (some c) t i]
    congr 1
    cases d with
    | nil => simp [lastCtx]
    | cons b l =>
      rw [lastCtx, lastCtx, List.getLast?_cons_cons]
      cases hq : (b :: l).getLast? with
      | none => simp at hq
      | some x => rfl

theorem matchHereB_isPrefixOf (o : PyStr) (prev : Option Char) (t : PyStr)
    (h : matchHereB o prev t = true) : o.isPrefixOf t = true := by
  rw [matchHereB, Bool.and_eq_true, Bool.and_eq_true] at h
  exact h.1.1

theorem occAtB_covered (o : PyStr) (ho : 0 < o.length) :
    ∀ (f : Nat) (t : PyStr) (prev : Option Char) (base i : Nat),
      t.length < f → occAtB o prev t i = true →
      ∃ j ∈ matchPositionsGo o f prev base t,
        j ≤ base + i ∧ base + i < j + o.length := by
  intro f
  induction f with
  | zero => intro t prev base i h; omega
  | succ f ih =>
    intro t prev base i hlen hocc
    cases t with
    | nil =>
      exfalso
      cases i with
      | zero =>
        rw [occAtB] at hocc
        have hp := matchHereB_isPrefixOf o prev [] hocc
        cases o with
        | nil => simp at ho
        | cons a l => simp [List.isPrefixOf] at hp
      | succ i => rw [occAtB] at hocc; cases hocc
    | cons c cs =>
      rw [matchPositionsGo]
      by_cases hm : 0 < o.length ∧ matchHereB o prev (c :: cs) = true
      · rw [if_pos hm]
        by_cases hio : i < o.length
        · exact ⟨base, by simp, by omega, by omega⟩
        · have hpre : o.isPrefixOf (c :: cs) = true :=
            matchHereB_isPrefixOf o prev (c :: cs) hm.2
          have heq : o ++ (c :: cs).drop o.length = c :: cs :=
            List.prefix_iff_eq_append.mp (List.isPrefixOf_iff_prefix.mp hpre)
          have hshift : occAtB o o.getLast? ((c :: cs).drop o.length)
              (i - o.length) = true := by
            have h1 := occAtB_shift o o prev ((c :: cs).drop o.length) (i - o.length)
            rw [heq] at h1
            have hi : o.length + (i - o.length) = i := by omega
            rw [hi] at h1
            have hlast : lastCtx o prev = o.getLast? := by
              cases o with
              | nil => simp at ho
              | cons a l =>
                rw [lastCtx]
                cases hq : (a :: l).getLast? with
                | none => simp at hq
                | some x => rfl
            rw [hlast] at h1
            rw [← h1]
            exact hocc
          have hlen2 : ((c :: cs).drop o.length).length < f := by
            have hc1 := congrArg List.length heq
            simp only [List.length_append, List.length_cons] at hc1 hlen
            omega
          obtain ⟨j, hj, hj1, hj2⟩ :=
            ih _ o.getLast? (base + o.length) (i - o.length) hlen2 hshift
          exact ⟨j, List.mem_cons_of_mem base hj, by omega, by omega⟩
      · rw [if_neg hm]
        cases i with
        | zero =>
          rw [occAtB] at hocc
          exact absurd ⟨ho, hocc⟩ hm
        | succ i =>
          rw [occAtB] at hocc
          have hlen2 : cs.length < f := by
            simp only [List.length_cons] at hlen
            omega
          obtain ⟨j, hj, hj1, hj2⟩ := ih cs (some c) (base + 1) i hlen2 hocc
          exact ⟨j, hj, by omega, by omega⟩

theorem subWordBoundedGo_id (o ph : PyStr) :
    ∀ (f : Nat) (t : PyStr) (prev : Option Char),
      t.length < f → (∀ i, i < t.length → occAtB o prev t i = false) →
      subWordBoundedGo o ph f prev t = t := by
  intro f
  induction f with
  | zero => intro t prev h; omega
  | succ f ih =>
    intro t prev hlen hno
    cases t with
    | nil => rfl
    | cons c cs =>
      rw [subWordBoundedGo]
      have hm : ¬ (0 < o.length ∧ matchHereB o prev (c :: cs) = true) := by
        intro hc
        have h0 := hno 0 (by simp)
        rw [occAtB] at h0
        rw [hc.2] at h0
        cases h0
      rw [if_neg hm]
      have hrec : subWordBoundedGo o ph f (some c) cs = cs := by
        refine ih cs (some c) (by simp only [List.length_cons] at hlen; omega) ?_
        intro i hi
        have := hno (i + 1) (by simp only [List.length_cons]; omega)
        rwa [occAtB] at this
      rw [hrec]

/-- C6: `extract_entities_with_spacy` assigns exactly one placeholder per
unique (stripped) entity surface form — the replacement dictionary's keys
are distinct, and an entity whose surface form is already registered is
skipped, leaving the result unchanged — and its replacement stage
substitutes surface forms with whole-word-boundary matching: every
word-boundary-delimited occurrence of a registered surface form is covered
by a replaced match, and a text in which a surface form occurs only inside
longer words (never at word boundaries) is left unchanged. -/
theorem C6_entity_dedup_and_boundary_replacement
    (ctr : Counters) (ents pre suf : List Ent) (e : Ent) (text o ph t : PyStr) :
    (keysOf (extract_entities_with_spacy ctr ents text).2.1).Nodup
    ∧ (ents = pre ++ e :: suf →
        pyStrip e.text ∈ keysOf (registerEnts ⟨[], [], ctr⟩ pre).entity_map →
        extract_entities_with_spacy ctr ents text
          = extract_entities_with_spacy ctr (pre ++ suf) text)
    ∧ (0 < o.length → ∀ i, occAtB o none t i = true →
        ∃ j ∈ matchPositions o t, j ≤ i ∧ i < j + o.length)
    ∧ (0 < o.length → (∀ i, i < t.length → occAtB o none t i = false) →
        subWordBounded o ph none t = t) := by
  refine ⟨?_, ?_, ?_, ?_⟩
  · exact (registerEnts_good ents ⟨[], [], ctr⟩ rfl (by simp [keysOf])).2
  · intro h1 h2
    subst h1
    rw [extract_entities_with_spacy, extract_entities_with_spacy,
      registerEnts_dup ctr pre suf e h2]
  · intro ho i hocc
    simpa using occAtB_covered o ho (t.length + 1) t none 0 i (by omega) hocc
  · intro ho hno
    exact subWordBoundedGo_id o ph (t.length + 1) t none (by omega) hno

/-- C6 witness: a duplicate surface form (differing only by surrounding
whitespace) is skipped — removing it does not change the result — the
replacement keys are distinct, a boundary occurrence is covered by a
replaced match, and a surface form occurring only inside a longer word is
left untouched. -/
theorem C6_witness :
    (keysOf (extract_entities_with_spacy freshCounters
        [⟨"Иванов".data, "PER"⟩, ⟨" Иванов ".data, "PER"⟩]
        "Иванов и Иванова".data).2.1).Nodup
    ∧ extract_entities_with_spacy freshCounters
        [⟨"Иванов".data, "PER"⟩, ⟨" Иванов ".data, "PER"⟩] "Иванов и Иванова".data
      = extract_entities_with_spacy freshCounters
          ([⟨"Иванов".data, "PER"⟩] ++ []) "Иванов и Иванова".data
    ∧ (∃ j ∈ matchPositions "Иванов".data "Иванов и Иванова".data,
        j ≤ 0 ∧ 0 < j + ("Иванов".data : PyStr).length)
    ∧ subWordBounded "Смирнов".data "[ЛИЦО-9]".data none "Смирновым".data
      = "Смирновым".data := by
  have h := C6_entity_dedup_and_boundary_replacement freshCounters
    [⟨"Иванов".data, "PER"⟩, ⟨" Иванов ".data, "PER"⟩]
    [⟨"Иванов".data, "PER"⟩] [] ⟨" Иванов ".data, "PER"⟩
    "Иванов и Иванова".data "Иванов".data "[ЛИЦО-9]".data "Смирновым".data
  have h2 := C6_entity_dedup_and_boundary_replacement freshCounters
    [⟨"Иванов".data, "PER"⟩, ⟨" Иванов ".data, "PER"⟩]
    [⟨"Иванов".data, "PER"⟩] [] ⟨" Иванов ".data, "PER"⟩
    "Иванов и Иванова".data "Иванов".data "[ЛИЦО-9]".data
    "Иванов и Иванова".data
  exact ⟨h.1, h.2.1 rfl (by decide), h2.2.2.1 (by decide) 0 (by decide),
    h.2.2.2 (by decide) (by decide)⟩

end Deid

